import Mathlib

/-!
# Verification of the battle game engine (`src/battle/src/game.rs`)

This file gives a shallow embedding of the tick-driven Tetris battle engine:
the `Game` struct, its 4-state machine and the `update`, `lock` and
`deal_garbage` functions, translated from the Rust source.

The playfield (`Board`), the falling piece (`FallingPiece`) and the two RNGs
are external collaborators of the engine (the spec specifies them only at
their interface), so the embedding is parametric in a record `Ops` of the
operations the engine invokes on them.  Every theorem below quantifies over
all such operation records, hence holds for every board implementation.

Machine integers: all `u32` counters become `Nat`, all `i32` quantities
become `Int`.  The single `u32` subtraction in the source that is not
dominated by a guard (`falling.lock_delay -= 1`) is modeled as a checked
subtraction: `update` returns `Except Halt _` and yields
`Halt.lockDelayUnderflow` exactly when the Rust subtraction would overflow
(panic in a debug build).  The unbounded `while` gravity loop is modeled
with explicit fuel; exhausting the fuel yields `Halt.gravityDiverge`, and we
prove the fuel suffices whenever `config.gravity ≥ 1`, and that no fuel
suffices when `config.gravity = 0` and the accumulator is negative.
`board.advance_queue().unwrap()` yields `Halt.queueEmpty` when the queue is
empty.
-/

set_option maxHeartbeats 1000000

namespace CC

/-- Controller sample: the seven buttons read by `Game::update`.  The
`Controller` struct lives in the battle crate next to `game.rs`; its field
set is exactly the set of buttons `update` reads. -/
structure Controller where
  left : Bool := false
  right : Bool := false
  rotate_right : Bool := false
  rotate_left : Bool := false
  hold : Bool := false
  soft_drop : Bool := false
  hard_drop : Bool := false
  deriving DecidableEq, Repr

/-- The all-buttons-released controller (`Controller::default()`). -/
def noInput : Controller := {}

/-- Configuration options read by `game.rs` (`GameConfig`).  `u32` fields
become `Nat`; `gravity` is used as an `i32` accumulator increment, so it is
an `Int`. -/
structure GameConfig where
  spawn_delay : Nat
  line_clear_delay : Nat
  delayed_auto_shift : Nat
  auto_repeat_rate : Nat
  gravity : Int
  soft_drop_speed : Nat
  lock_delay : Nat
  move_lock_rule : Nat
  next_queue_size : Nat
  max_garbage_add : Nat
  deriving DecidableEq, Repr

/-- The part of `libtetris::LockResult` that `game.rs` reads. -/
structure LockResult where
  locked_out : Bool
  cleared_lines : List Int
  garbage_sent : Nat
  deriving DecidableEq, Repr

/-- The `Event` enum of `game.rs`, parametric in the piece type `P`
(for `FallingPiece`) and kind type `K` (for `Piece`). -/
inductive Event (P K : Type) where
  | PieceSpawned (new_in_queue : K)
  | SpawnDelayStart
  | PieceMoved
  | PieceRotated
  | PieceTSpined
  | PieceHeld (k : K)
  | StackTouched
  | SoftDropped
  | PieceFalling (piece ghost : P)
  | EndOfLineClearDelay
  | PiecePlaced (piece : P) (locked : LockResult) (hard_drop_distance : Option Int)
  | GarbageSent (n : Nat)
  | GarbageAdded (cols : List Nat)
  | GameOver
  deriving DecidableEq, Repr

/-- The `FallingState` struct of `game.rs`. -/
structure FallingState (P : Type) where
  piece : P
  lowest_y : Int
  rotation_move_count : Nat
  gravity : Int
  lock_delay : Nat
  soft_drop_delay : Nat
  deriving DecidableEq, Repr

/-- The `GameState` enum of `game.rs`. -/
inductive GameState (P : Type) where
  | SpawnDelay (n : Nat)
  | LineClearDelay (n : Nat)
  | Falling (f : FallingState P)
  | GameOver
  deriving DecidableEq, Repr

/-- The `Game` struct of `game.rs`.  `B` is the board type, `P` the falling
piece type. -/
structure Game (B P : Type) where
  board : B
  state : GameState P
  config : GameConfig
  did_hold : Bool
  prev : Controller
  used : Controller
  das_delay : Nat
  garbage_queue : Nat
  attacking : Nat
  deriving DecidableEq, Repr

/-- The ways a tick of the Rust `update` can fail to produce a value:
a panic on `advance_queue().unwrap()`, a `u32` subtraction overflow on
`falling.lock_delay -= 1`, or divergence of the gravity drop loop. -/
inductive Halt where
  | queueEmpty
  | lockDelayUnderflow
  | gravityDiverge
  deriving DecidableEq, Repr

/-- Interface of the external collaborators (`Board`, `FallingPiece` and the
RNGs), exactly the operations `game.rs` invokes.  Rust methods that mutate
the receiver and return a `bool` success flag become `Option`-returning
functions (`some` carrying the mutated value on success). -/
structure Ops (B P K R : Type) where
  newBoard : B
  generate_next_piece : B → R → K × R
  advance_queue : B → B × Option K
  add_next_piece : B → K → B
  spawn : K → B → Option P
  hold : B → K → B × Option K
  on_stack : B → P → Bool
  cw : P → B → Option P
  ccw : P → B → Option P
  shift : P → B → Int → Int → Option P
  sonic_drop : P → B → P
  min_cell_y : P → Int
  pos_y : P → Int
  is_tspin : P → Bool
  kind : P → K
  lock_piece : B → P → B × LockResult
  gen_range10 : R → Nat × R
  gen_bool3 : R → Bool × R
  add_garbage : B → Nat → B × Bool

variable {B P K R : Type}

/-- `update_input` from `game.rs`: consumable edge-triggered intent update. -/
def update_input (used prev current : Bool) : Bool :=
  if !current then false else if !prev then true else used

/-- The edge-processing prelude of `Game::update` (lines 78-85): per-button
`update_input`, rising-edge `hard_drop`, level-held `soft_drop` (the source
first runs `update_input` on `soft_drop` and then overwrites it with the raw
level, so the net effect is the raw level). -/
def edge_used (prev used current : Controller) : Controller :=
  { left := update_input used.left prev.left current.left,
    right := update_input used.right prev.right current.right,
    rotate_right := update_input used.rotate_right prev.rotate_right current.rotate_right,
    rotate_left := update_input used.rotate_left prev.rotate_left current.rotate_left,
    hold := update_input used.hold prev.hold current.hold,
    soft_drop := current.soft_drop,
    hard_drop := !prev.hard_drop && current.hard_drop }

/-- The input-conditioning phase of `Game::update` (lines 78-118): edge
processing followed by the DAS/ARR block.  Returns the new `used` controller
and the new `das_delay`. -/
def input_phase (config : GameConfig) (prev used : Controller) (das_delay : Nat)
    (current : Controller) : Controller × Nat :=
  let u := edge_used prev used current
  let switched_left_right := (current.left != prev.left) && (current.right != prev.right)
  if (current.left != current.right) && !switched_left_right then
    if u.left || u.right then
      -- While movement is buffered, don't let the time until the next shift
      -- fall below the auto-repeat rate.
      if config.auto_repeat_rate < das_delay then (u, das_delay - 1) else (u, das_delay)
    else if das_delay = 0 then
      -- Apply auto-shift
      ({ u with left := current.left, right := current.right }, config.auto_repeat_rate)
    else (u, das_delay - 1)
  else
    -- Reset delayed auto shift, then redo button presses
    let u1 := { u with left := false, right := false }
    let u2 :=
      if current.left && !prev.left then { u1 with left := true }
      else if current.right && !prev.right then { u1 with right := true }
      else u1
    (u2, config.delayed_auto_shift)

/-- The gravity drop loop of `Game::update` (lines 292-295):
`while gravity < 0 { gravity += cfg_gravity; piece.shift(0, -1); }`,
with explicit fuel.  The shift result is ignored on failure, as in the
source. -/
def gravity_loop (shift : P → B → Int → Int → Option P) (b : B) (cfg_gravity : Int) :
    Nat → Int → P → Option (Int × P)
  | 0, grav, p => if grav < 0 then none else some (grav, p)
  | fuel + 1, grav, p =>
    if grav < 0 then
      gravity_loop shift b cfg_gravity fuel (grav + cfg_gravity) ((shift p b 0 (-1)).getD p)
    else some (grav, p)

/-- Result of the garbage-insertion loop inside `deal_garbage`. -/
structure GarbageRes (B R : Type) where
  board : B
  dead : Bool
  cols : List Nat
  rng : R
  deriving DecidableEq, Repr

/-- The `for _ in 0..garbage_queue.min(max_garbage_add)` loop of
`deal_garbage` (lines 369-375): with probability 1/3 resample the column,
record the column, insert a garbage row, accumulate the death flag. -/
def garbage_loop (ops : Ops B P K R) : Nat → B → Nat → R → GarbageRes B R
  | 0, b, _, r => { board := b, dead := false, cols := [], rng := r }
  | n + 1, b, col, r =>
    let resample := ops.gen_bool3 r
    let colr : Nat × R := if resample.1 then ops.gen_range10 resample.2 else (col, resample.2)
    let step := ops.add_garbage b colr.1
    let rest := garbage_loop ops n step.1 colr.1 colr.2
    { board := rest.board, dead := step.2 || rest.dead, cols := colr.1 :: rest.cols,
      rng := rest.rng }

/-- `Game::deal_garbage` (lines 357-386): cancel the outgoing attack against
the incoming garbage queue, then either inject garbage rows (at most
`max_garbage_add` per settle) or send the remaining attack. -/
def deal_garbage (ops : Ops B P K R) (g : Game B P) (events : List (Event P K)) (r : R) :
    Game B P × List (Event P K) × R :=
  let att := if g.garbage_queue < g.attacking then g.attacking - g.garbage_queue else 0
  let gq := if g.garbage_queue < g.attacking then 0 else g.garbage_queue - g.attacking
  if 0 < gq then
    let c0 := ops.gen_range10 r
    let n := min gq g.config.max_garbage_add
    let res := garbage_loop ops n g.board c0.1 c0.2
    let g1 := { g with board := res.board, attacking := att, garbage_queue := gq - n }
    if res.dead then
      ({ g1 with state := GameState.GameOver },
       events ++ [Event.GarbageAdded res.cols, Event.GameOver], res.rng)
    else (g1, events ++ [Event.GarbageAdded res.cols], res.rng)
  else if 0 < att then
    ({ g with attacking := 0, garbage_queue := gq }, events ++ [Event.GarbageSent att], r)
  else ({ g with attacking := att, garbage_queue := gq }, events, r)

/-- `Game::lock` (lines 329-355): clear `did_hold`, lock the piece through
the board, emit `PiecePlaced`, then branch on lock-out / no clear / clear. -/
def lock (ops : Ops B P K R) (g : Game B P) (falling : FallingState P)
    (events : List (Event P K)) (r : R) (dist : Option Int) :
    Game B P × List (Event P K) × R :=
  let g1 := { g with did_hold := false }
  let res := ops.lock_piece g1.board falling.piece
  let g2 := { g1 with board := res.1 }
  let events1 := events ++ [Event.PiecePlaced falling.piece res.2 dist]
  if res.2.locked_out then
    ({ g2 with state := GameState.GameOver }, events1 ++ [Event.GameOver], r)
  else if res.2.cleared_lines.isEmpty then
    deal_garbage ops { g2 with state := GameState.SpawnDelay g2.config.spawn_delay } events1 r
  else
    ({ g2 with
        attacking := g2.attacking + res.2.garbage_sent,
        state := GameState.LineClearDelay g2.config.line_clear_delay }, events1, r)

/-- A tick that ends by calling `lock` and returning (`self.lock(...); return events;`). -/
def lock_tick (ops : Ops B P K R) (g : Game B P) (falling : FallingState P)
    (events : List (Event P K)) (pr gr : R) (dist : Option Int) :
    Except Halt (Game B P × List (Event P K) × R × R) :=
  let res := lock ops g falling events gr dist
  Except.ok (res.1, res.2.1, pr, res.2.2)

/-- One rotation attempt (lines 201-224 of `game.rs`, either direction):
on success consume the intent, bump `rotation_move_count`, reset
`lock_delay` to the configured value and emit the spin/rotate event. -/
def try_rotate (rot : P → B → Option P) (tsp : P → Bool) (cfg_lock : Nat) (b : B)
    (f : FallingState P) (flag : Bool) (events : List (Event P K)) :
    FallingState P × Bool × List (Event P K) :=
  if flag then
    match rot f.piece b with
    | some p =>
      ({ f with
          piece := p, rotation_move_count := f.rotation_move_count + 1,
          lock_delay := cfg_lock }, false,
       events ++ [if tsp p then Event.PieceTSpined else Event.PieceRotated])
    | none => (f, flag, events)
  else (f, flag, events)

/-- One shift attempt (lines 227-242 of `game.rs`): on success consume the
intent, bump `rotation_move_count`, reset `lock_delay` and emit
`PieceMoved`. -/
def try_shift (shf : P → B → Int → Int → Option P) (dx : Int) (cfg_lock : Nat) (b : B)
    (f : FallingState P) (flag : Bool) (events : List (Event P K)) :
    FallingState P × Bool × List (Event P K) :=
  if flag then
    match shf f.piece b dx 0 with
    | some p =>
      ({ f with
          piece := p, rotation_move_count := f.rotation_move_count + 1,
          lock_delay := cfg_lock }, false, events ++ [Event.PieceMoved])
    | none => (f, flag, events)
  else (f, flag, events)

/-- The rotate/shift/lowest-y section of the `Falling` branch
(lines 200-249): CW rotate, CCW rotate, left shift, right shift, then the
15-move-rule reset when the piece's minimum cell y went strictly below
`lowest_y`.  Returns the updated falling state, the updated `used`
controller and the emitted events. -/
def apply_moves (ops : Ops B P K R) (cfg_lock : Nat) (b : B) (u : Controller)
    (f : FallingState P) : FallingState P × Controller × List (Event P K) :=
  let s1 := try_rotate (K := K) ops.cw ops.is_tspin cfg_lock b f u.rotate_right []
  let s2 := try_rotate (K := K) ops.ccw ops.is_tspin cfg_lock b s1.1 u.rotate_left s1.2.2
  let s3 := try_shift (K := K) ops.shift (-1) cfg_lock b s2.1 u.left s2.2.2
  let s4 := try_shift (K := K) ops.shift 1 cfg_lock b s3.1 u.right s3.2.2
  let f1 := s4.1
  let low_y := ops.min_cell_y f1.piece
  let f2 :=
    if low_y < f1.lowest_y then { f1 with rotation_move_count := 0, lowest_y := low_y }
    else f1
  (f2, { u with
          rotate_right := s1.2.1, rotate_left := s2.2.1, left := s3.2.1,
          right := s4.2.1 }, s4.2.2)

/-- A tick of the `Falling` branch that reaches its end without locking:
store the falling state back and emit `PieceFalling(piece, ghost)`
(lines 320-324). -/
def finish_tick (ops : Ops B P K R) (g : Game B P) (f : FallingState P)
    (events : List (Event P K)) (pr gr : R) :
    Except Halt (Game B P × List (Event P K) × R × R) :=
  let ghost := ops.sonic_drop f.piece g.board
  Except.ok ({ g with state := GameState.Falling f },
    events ++ [Event.PieceFalling f.piece ghost], pr, gr)

/-- Steps of the `Falling` branch from the hard-drop check to the end of the
tick (lines 266-324): hard drop, on-stack lock-delay branch (with the
checked `lock_delay -= 1`), off-stack gravity branch with the drop loop and
the soft-drop override, then ghost emission. -/
def falling_after_rule (ops : Ops B P K R) (g : Game B P) (was_on_stack : Bool)
    (f : FallingState P) (events : List (Event P K)) (pr gr : R) :
    Except Halt (Game B P × List (Event P K) × R × R) :=
  if g.used.hard_drop then
    let y := ops.pos_y f.piece
    let p2 := ops.sonic_drop f.piece g.board
    lock_tick ops g { f with piece := p2 } events pr gr (some (y - ops.pos_y p2))
  else if ops.on_stack g.board f.piece then
    let events1 := if was_on_stack then events else events ++ [Event.StackTouched]
    match f.lock_delay with
    | 0 => Except.error Halt.lockDelayUnderflow
    | d + 1 =>
      let f1 := { f with lock_delay := d, gravity := g.config.gravity }
      if d = 0 then lock_tick ops g f1 events1 pr gr none
      else finish_tick ops g f1 events1 pr gr
  else
    let f1 := { f with lock_delay := g.config.lock_delay, gravity := f.gravity - 100 }
    match gravity_loop ops.shift g.board g.config.gravity ((-f1.gravity).toNat + 1)
        f1.gravity f1.piece with
    | none => Except.error Halt.gravityDiverge
    | some gp =>
      let f2 := { f1 with gravity := gp.1, piece := gp.2 }
      if ops.on_stack g.board f2.piece then
        finish_tick ops g f2 (events ++ [Event.StackTouched]) pr gr
      else if (g.config.soft_drop_speed : Int) * 100 < g.config.gravity then
        if g.used.soft_drop then
          if f2.soft_drop_delay = 0 then
            let p3 := (ops.shift f2.piece g.board 0 (-1)).getD f2.piece
            let f3 := { f2 with
                piece := p3, soft_drop_delay := g.config.soft_drop_speed,
                gravity := g.config.gravity }
            let events1 := events ++ [Event.PieceMoved]
            let events2 :=
              if ops.on_stack g.board f3.piece then events1 ++ [Event.StackTouched]
              else events1
            finish_tick ops g f3 (events2 ++ [Event.SoftDropped]) pr gr
          else
            finish_tick ops g { f2 with soft_drop_delay := f2.soft_drop_delay - 1 } events pr gr
        else finish_tick ops g { f2 with soft_drop_delay := 0 } events pr gr
      else finish_tick ops g f2 events pr gr

/-- The 15-move lock rule check and everything after it (lines 251-324):
if `rotation_move_count` has reached `move_lock_rule` and the sonic-dropped
piece's minimum cell y is not below `lowest_y`, lock at the dropped position
and return; otherwise fall through to `falling_after_rule`. -/
def falling_rest (ops : Ops B P K R) (g : Game B P) (was_on_stack : Bool)
    (f : FallingState P) (events : List (Event P K)) (pr gr : R) :
    Except Halt (Game B P × List (Event P K) × R × R) :=
  let dropped := ops.sonic_drop f.piece g.board
  if g.config.move_lock_rule ≤ f.rotation_move_count ∧
      f.lowest_y ≤ ops.min_cell_y dropped then
    lock_tick ops g { f with piece := dropped } events pr gr none
  else falling_after_rule ops g was_on_stack f events pr gr

/-- The whole `GameState::Falling` branch of `Game::update` (lines 166-325):
snapshot `was_on_stack`, the hold section (which returns immediately), then
the rotate/shift section and `falling_rest`. -/
def falling_tick (ops : Ops B P K R) (g : Game B P) (f : FallingState P) (pr gr : R) :
    Except Halt (Game B P × List (Event P K) × R × R) :=
  let was_on_stack := ops.on_stack g.board f.piece
  if !g.did_hold && g.used.hold then
    let g1 := { g with did_hold := true }
    let k := ops.kind f.piece
    let events : List (Event P K) := [Event.PieceHeld k]
    let hres := ops.hold g1.board k
    let g2 := { g1 with board := hres.1 }
    match hres.2 with
    | some piece =>
      -- Piece in hold; the piece spawns instantly
      match ops.spawn piece g2.board with
      | some sp =>
        let fs : FallingState P :=
          { piece := sp, lowest_y := ops.min_cell_y sp, rotation_move_count := 0,
            gravity := g2.config.gravity, lock_delay := 30, soft_drop_delay := 0 }
        let ghost := ops.sonic_drop sp g2.board
        Except.ok ({ g2 with state := GameState.Falling fs },
          events ++ [Event.PieceFalling sp ghost], pr, gr)
      | none =>
        -- Hold piece couldn't spawn; Block Out
        Except.ok ({ g2 with state := GameState.GameOver },
          events ++ [Event.GameOver], pr, gr)
    | none =>
      -- Nothing in hold; spawn next piece normally
      Except.ok ({ g2 with state := GameState.SpawnDelay g2.config.spawn_delay },
        events, pr, gr)
  else
    let mv := apply_moves ops g.config.lock_delay g.board g.used f
    let g1 := { g with used := mv.2.1 }
    falling_rest ops g1 was_on_stack mv.1 mv.2.2 pr gr

/-- The `GameState::SpawnDelay(0)` branch of `Game::update` (lines 123-146):
advance the queue (panicking if empty), generate and append a new next
piece, then attempt the spawn. -/
def spawn_tick (ops : Ops B P K R) (g : Game B P) (pr gr : R) :
    Except Halt (Game B P × List (Event P K) × R × R) :=
  let aq := ops.advance_queue g.board
  match aq.2 with
  | none => Except.error Halt.queueEmpty
  | some next_piece =>
    let gen := ops.generate_next_piece aq.1 pr
    let b2 := ops.add_next_piece aq.1 gen.1
    match ops.spawn next_piece b2 with
    | some sp =>
      let fs : FallingState P :=
        { piece := sp, lowest_y := ops.min_cell_y sp, rotation_move_count := 0,
          gravity := g.config.gravity, lock_delay := 30, soft_drop_delay := 0 }
      let ghost := ops.sonic_drop sp b2
      Except.ok ({ g with board := b2, state := GameState.Falling fs },
        [Event.PieceSpawned gen.1, Event.PieceFalling sp ghost], gen.2, gr)
    | none =>
      Except.ok ({ g with board := b2, state := GameState.GameOver },
        [Event.GameOver], gen.2, gr)

/-- `Game::update` (lines 75-327): input conditioning, `prev := current`,
then dispatch on the state. -/
def update (ops : Ops B P K R) (g0 : Game B P) (current : Controller) (pr gr : R) :
    Except Halt (Game B P × List (Event P K) × R × R) :=
  let ud := input_phase g0.config g0.prev g0.used g0.das_delay current
  let g := { g0 with used := ud.1, das_delay := ud.2, prev := current }
  match g0.state with
  | GameState.SpawnDelay 0 => spawn_tick ops g pr gr
  | GameState.SpawnDelay (n + 1) =>
    Except.ok ({ g with state := GameState.SpawnDelay n },
      if n + 1 = g.config.spawn_delay then [Event.SpawnDelayStart] else [], pr, gr)
  | GameState.LineClearDelay 0 =>
    let g1 := { g with state := GameState.SpawnDelay g.config.spawn_delay }
    let res := deal_garbage ops g1 [Event.EndOfLineClearDelay] gr
    Except.ok (res.1, res.2.1, pr, res.2.2)
  | GameState.LineClearDelay (n + 1) =>
    Except.ok ({ g with state := GameState.LineClearDelay n }, [], pr, gr)
  | GameState.GameOver => Except.ok (g, [Event.GameOver], pr, gr)
  | GameState.Falling f => falling_tick ops g f pr gr

/-- The queue-priming loop of `Game::new` (lines 60-62). -/
def prime_queue (ops : Ops B P K R) : Nat → B → R → B × R
  | 0, b, r => (b, r)
  | n + 1, b, r =>
    let gen := ops.generate_next_piece b r
    prime_queue ops n (ops.add_next_piece b gen.1) gen.2

/-- `Game::new` (lines 58-73). -/
def new_game (ops : Ops B P K R) (config : GameConfig) (r : R) : Game B P × R :=
  let br := prime_queue ops config.next_queue_size ops.newBoard r
  ({ board := br.1, state := GameState.SpawnDelay config.spawn_delay, config := config,
     did_hold := false, prev := noInput, used := noInput,
     das_delay := config.delayed_auto_shift, garbage_queue := 0, attacking := 0 }, br.2)

/-- Run `update` over a list of controller samples, collecting the per-tick
event lists; a halt on any tick aborts the run. -/
def run (ops : Ops B P K R) :
    Game B P → List Controller → R → R →
    Except Halt (Game B P × List (List (Event P K)) × R × R)
  | g, [], pr, gr => Except.ok (g, [], pr, gr)
  | g, c :: cs, pr, gr =>
    match update ops g c pr gr with
    | Except.error e => Except.error e
    | Except.ok (g1, evs, pr1, gr1) =>
      match run ops g1 cs pr1 gr1 with
      | Except.error e => Except.error e
      | Except.ok (g2, evss, pr2, gr2) => Except.ok (g2, evs :: evss, pr2, gr2)

/-! ## Concrete instantiations used by witnesses and counterexamples -/

/-- A degenerate board on unit types: the queue is never empty, spawning
always succeeds, every piece is always on the stack, rotations and shifts
always fail, and locking returns the fixed `LockResult` `lr`.  Used to
evaluate the engine on closed inputs. -/
def constOps (lr : LockResult) : Ops Unit Unit Unit Unit :=
  { newBoard := (), generate_next_piece := fun _ r => ((), r),
    advance_queue := fun b => (b, some ()),
    add_next_piece := fun b _ => b,
    spawn := fun _ _ => some (),
    hold := fun b _ => (b, none),
    on_stack := fun _ _ => true,
    cw := fun _ _ => none, ccw := fun _ _ => none,
    shift := fun _ _ _ _ => none,
    sonic_drop := fun p _ => p,
    min_cell_y := fun _ => 0, pos_y := fun _ => 0,
    is_tspin := fun _ => false, kind := fun _ => (),
    lock_piece := fun b _ => (b, lr),
    gen_range10 := fun r => (7, r),
    gen_bool3 := fun r => (false, r),
    add_garbage := fun b _ => (b, false) }

/-- A lock result with no lock-out, no cleared lines and no attack. -/
def lr0 : LockResult := { locked_out := false, cleared_lines := [], garbage_sent := 0 }

/-- A sample configuration with instant spawn. -/
def cfg0 : GameConfig :=
  { spawn_delay := 0, line_clear_delay := 4, delayed_auto_shift := 10,
    auto_repeat_rate := 2, gravity := 100, soft_drop_speed := 1, lock_delay := 30,
    move_lock_rule := 15, next_queue_size := 5, max_garbage_add := 2 }

/-- The game `Game::new(cfg0)` produces over the degenerate board. -/
def g0 : Game Unit Unit := (new_game (constOps lr0) cfg0 ()).1

/-- A controller sample pressing only hard drop. -/
def cHD : Controller := { hard_drop := true }

/-! ## Claim C2: garbage cancellation -/

/-- Claim C2: after every call to `deal_garbage` returns, the outgoing
attack counter and the incoming garbage queue are never simultaneously
positive: `min(pending_attack, garbage_queue) = 0`. -/
theorem deal_garbage_cancels (ops : Ops B P K R) (g : Game B P)
    (events : List (Event P K)) (r : R) :
    min (deal_garbage ops g events r).1.attacking
      (deal_garbage ops g events r).1.garbage_queue = 0 := by
  unfold deal_garbage
  dsimp only
  split_ifs <;> simp_all

/-! ## Claim C3: terminality of GameOver -/

/-- One-step form: from a `GameOver` state, `update` returns exactly
`[GameOver]` and stays in `GameOver`. -/
theorem update_gameover (ops : Ops B P K R) (g : Game B P) (c : Controller) (pr gr : R)
    (h : g.state = GameState.GameOver) :
    ∃ g', update ops g c pr gr = Except.ok (g', ([Event.GameOver] : List (Event P K)), pr, gr) ∧
      g'.state = GameState.GameOver := by
  unfold update
  rw [h]
  exact ⟨_, rfl, rfl⟩

/-- Claim C3: once the game has entered the `GameOver` state, every
subsequent `update`, for every controller input and all RNG values, returns
exactly the one-element event list `[GameOver]` and leaves the state
`GameOver` forever. -/
theorem gameover_terminal (ops : Ops B P K R) (g : Game B P) (cs : List Controller)
    (pr gr : R) (h : g.state = GameState.GameOver) :
    ∃ g', run ops g cs pr gr =
        Except.ok (g', List.replicate cs.length ([Event.GameOver] : List (Event P K)), pr, gr) ∧
      g'.state = GameState.GameOver := by
  induction cs generalizing g with
  | nil => exact ⟨g, rfl, h⟩
  | cons c cs ih =>
    obtain ⟨g1, hu, hs1⟩ := update_gameover ops g c pr gr h
    obtain ⟨g', hr, hs'⟩ := ih g1 hs1
    refine ⟨g', ?_, hs'⟩
    simp only [run, hu, hr, List.length_cons, List.replicate_succ]

/-- Witness for C3 at a concrete input: a game that just topped out. -/
theorem gameover_terminal_witness :
    ∃ g', run (constOps lr0) { g0 with state := GameState.GameOver }
        [noInput, cHD, noInput] () () =
        Except.ok (g', List.replicate 3 ([Event.GameOver] : List (Event Unit Unit)), (), ()) ∧
      g'.state = GameState.GameOver :=
  gameover_terminal (constOps lr0) { g0 with state := GameState.GameOver }
    [noInput, cHD, noInput] () () rfl

/-! ## Claim C6: SpawnDelayStart punctuality -/

/-- Claim C6: on every tick taken in state `SpawnDelay k`, the event
`SpawnDelayStart` is emitted iff `k = config.spawn_delay ∧ 0 < k`, i.e.
exactly on the first tick of a (nonempty) spawn-delay interval — the tick on
which, after decrementing, the remaining count plus 1 equals
`config.spawn_delay`.  Since the interval enters at `SpawnDelay spawn_delay`
and the counter strictly decreases, no other tick of the interval satisfies
this.  For `config.spawn_delay = 0` the interval has no waiting tick and the
event is never emitted (the iff's right side is false for every `k`). -/
theorem spawn_delay_start_punctual (ops : Ops B P K R) (g : Game B P) (c : Controller)
    (pr gr : R) (k : Nat) (g' : Game B P) (evs : List (Event P K)) (pr' gr' : R)
    (hs : g.state = GameState.SpawnDelay k)
    (hu : update ops g c pr gr = Except.ok (g', evs, pr', gr')) :
    (Event.SpawnDelayStart ∈ evs ↔ k = g.config.spawn_delay ∧ 0 < k) ∧
    (∀ n, k = n + 1 →
      evs = (if k = g.config.spawn_delay then [Event.SpawnDelayStart] else []) ∧
      g'.state = GameState.SpawnDelay n) := by
  cases k with
  | zero =>
    refine ⟨?_, fun n hn => absurd hn (by omega)⟩
    unfold update at hu
    rw [hs] at hu
    dsimp only at hu
    unfold spawn_tick at hu
    dsimp only at hu
    rcases h1 : (ops.advance_queue g.board).2 with _ | np <;> rw [h1] at hu
    · exact absurd hu (by simp)
    · dsimp only at hu
      rcases h2 : ops.spawn np (ops.add_next_piece (ops.advance_queue g.board).1
          (ops.generate_next_piece (ops.advance_queue g.board).1 pr).1) with _ | sp <;>
        rw [h2] at hu <;> dsimp only at hu <;>
        simp only [Except.ok.injEq, Prod.mk.injEq] at hu <;>
        obtain ⟨-, hevs, -⟩ := hu <;> subst hevs <;> simp
  | succ n =>
    unfold update at hu
    rw [hs] at hu
    dsimp only at hu
    simp only [Except.ok.injEq, Prod.mk.injEq] at hu
    obtain ⟨hg, hevs, -⟩ := hu
    subst hevs
    subst hg
    constructor
    · split <;> rename_i hcond <;> (simp [hcond]; try omega)
    · intro m hm
      obtain rfl : n = m := by omega
      exact ⟨rfl, rfl⟩

/-- A configuration with a two-tick spawn delay. -/
def cfg1 : GameConfig := { cfg0 with spawn_delay := 2 }

/-- The freshly created game under `cfg1`: state `SpawnDelay 2`. -/
def gW6 : Game Unit Unit := (new_game (constOps lr0) cfg1 ()).1

/-- Witness for C6: the first tick of the spawn-delay interval of a fresh
game under `cfg1` emits `SpawnDelayStart`. -/
theorem spawn_delay_start_punctual_witness :
    Event.SpawnDelayStart ∈ ([Event.SpawnDelayStart] : List (Event Unit Unit)) ↔
      2 = gW6.config.spawn_delay ∧ 0 < 2 :=
  (spawn_delay_start_punctual (constOps lr0) gW6 noInput () () 2 _ _ _ _ rfl rfl).1

/-! ## Claim C7: DAS/ARR conditioning -/

/-- Claim C7: single-direction case — with exactly one of left/right held
and no simultaneous swap: while a buffered edge intent is pending the DAS
counter is decremented only when it strictly exceeds `auto_repeat_rate` (so
it never falls below it); else at zero the held direction is asserted and
the counter reloads to `auto_repeat_rate`; else it just decrements.  In all
other cases the counter reloads to `delayed_auto_shift`, the direction
intents are cleared and the fresh press edges are re-applied (left taking
priority).  Here `u = edge_used prev used current` is the edge-processed
controller the DAS block inspects. -/
theorem das_arr_conditioning (config : GameConfig) (prev used current : Controller)
    (das : Nat) :
    (((current.left != current.right) &&
        !((current.left != prev.left) && (current.right != prev.right))) = true →
      ((edge_used prev used current).left || (edge_used prev used current).right) = true →
        input_phase config prev used das current =
          (edge_used prev used current,
            if config.auto_repeat_rate < das then das - 1 else das) ∧
        (config.auto_repeat_rate ≤ das →
          config.auto_repeat_rate ≤ (input_phase config prev used das current).2)) ∧
    (((current.left != current.right) &&
        !((current.left != prev.left) && (current.right != prev.right))) = true →
      ((edge_used prev used current).left || (edge_used prev used current).right) = false →
      das = 0 →
        input_phase config prev used das current =
          ({ edge_used prev used current with left := current.left, right := current.right },
            config.auto_repeat_rate)) ∧
    (((current.left != current.right) &&
        !((current.left != prev.left) && (current.right != prev.right))) = true →
      ((edge_used prev used current).left || (edge_used prev used current).right) = false →
      das ≠ 0 →
        input_phase config prev used das current = (edge_used prev used current, das - 1)) ∧
    (((current.left != current.right) &&
        !((current.left != prev.left) && (current.right != prev.right))) = false →
      (input_phase config prev used das current).2 = config.delayed_auto_shift ∧
      (input_phase config prev used das current).1.left = (current.left && !prev.left) ∧
      (input_phase config prev used das current).1.right =
        (current.right && !prev.right && !(current.left && !prev.left)) ∧
      (input_phase config prev used das current).1.rotate_right =
        (edge_used prev used current).rotate_right ∧
      (input_phase config prev used das current).1.rotate_left =
        (edge_used prev used current).rotate_left ∧
      (input_phase config prev used das current).1.hold =
        (edge_used prev used current).hold ∧
      (input_phase config prev used das current).1.soft_drop =
        (edge_used prev used current).soft_drop ∧
      (input_phase config prev used das current).1.hard_drop =
        (edge_used prev used current).hard_drop) := by
  refine ⟨?_, ?_, ?_, ?_⟩
  · intro hone hbuf
    refine ⟨?_, ?_⟩
    · simp only [input_phase, hone, hbuf, if_true]
      split <;> rfl
    · intro hle
      simp only [input_phase, hone, hbuf, if_true]
      split <;> simp <;> omega
  · intro hone hbuf hz
    subst hz
    simp only [input_phase, hone, hbuf, Bool.false_eq_true, if_true, if_false]
  · intro hone hbuf hz
    simp only [input_phase, hone, hbuf, Bool.false_eq_true, if_true, if_false, if_neg hz]
  · intro hother
    simp only [input_phase, hother, Bool.false_eq_true, if_false]
    rcases hl : current.left && !prev.left
    · rcases hr : current.right && !prev.right
      · simp [hl, hr]
      · simp [hl, hr]
    · simp [hl]

/-- Witness for C7: with left freshly pressed (edge intent buffered) and a
fully charged DAS counter equal to `auto_repeat_rate`, the counter is not
decremented below the auto-repeat rate. -/
theorem das_arr_conditioning_witness :
    input_phase cfg0 noInput noInput 2 { left := true } =
      (edge_used noInput noInput { left := true },
        if cfg0.auto_repeat_rate < 2 then 2 - 1 else 2) ∧
    (cfg0.auto_repeat_rate ≤ 2 →
      cfg0.auto_repeat_rate ≤ (input_phase cfg0 noInput noInput 2 { left := true }).2) :=
  (das_arr_conditioning cfg0 noInput noInput { left := true } 2).1 (by decide) (by decide)

/-! ## Claim C4: hardcoded lock delay 30 at spawn, config reset on moves -/

/-- Claim C4: every `FallingState` created at spawn — both on the
`SpawnDelay(0)` transition and on a post-hold swap spawn — has `lock_delay`
initialized to the constant 30 (not `config.lock_delay`), `soft_drop_delay
= 0` and `rotation_move_count = 0`; whereas every successful rotate or
shift resets `lock_delay` to `config.lock_delay`. -/
theorem spawn_lock_delay_constants :
    (∀ (ops : Ops B P K R) (g : Game B P) (pr gr : R) (np : K) (sp : P),
      (ops.advance_queue g.board).2 = some np →
      ops.spawn np (ops.add_next_piece (ops.advance_queue g.board).1
        (ops.generate_next_piece (ops.advance_queue g.board).1 pr).1) = some sp →
      ∃ g' evs pr', spawn_tick ops g pr gr = Except.ok (g', evs, pr', gr) ∧
        g'.state = GameState.Falling
          { piece := sp, lowest_y := ops.min_cell_y sp, rotation_move_count := 0,
            gravity := g.config.gravity, lock_delay := 30, soft_drop_delay := 0 }) ∧
    (∀ (ops : Ops B P K R) (g : Game B P) (f : FallingState P) (pr gr : R) (k2 : K) (sp : P),
      g.did_hold = false → g.used.hold = true →
      (ops.hold g.board (ops.kind f.piece)).2 = some k2 →
      ops.spawn k2 (ops.hold g.board (ops.kind f.piece)).1 = some sp →
      ∃ g' evs, falling_tick ops g f pr gr = Except.ok (g', evs, pr, gr) ∧
        g'.state = GameState.Falling
          { piece := sp, lowest_y := ops.min_cell_y sp, rotation_move_count := 0,
            gravity := g.config.gravity, lock_delay := 30, soft_drop_delay := 0 }) ∧
    (∀ (g : Game B P) (rot : P → B → Option P) (tsp : P → Bool) (b : B)
        (f : FallingState P) (flag : Bool) (evs : List (Event P K)) (p : P),
      flag = true → rot f.piece b = some p →
      (try_rotate (K := K) rot tsp g.config.lock_delay b f flag evs).1.lock_delay =
        g.config.lock_delay) ∧
    (∀ (g : Game B P) (shf : P → B → Int → Int → Option P) (dx : Int) (b : B)
        (f : FallingState P) (flag : Bool) (evs : List (Event P K)) (p : P),
      flag = true → shf f.piece b dx 0 = some p →
      (try_shift (K := K) shf dx g.config.lock_delay b f flag evs).1.lock_delay =
        g.config.lock_delay) := by
  refine ⟨?_, ?_, ?_, ?_⟩
  · intro ops g pr gr np sp h1 h2
    unfold spawn_tick
    dsimp only
    rw [h1]
    dsimp only
    rw [h2]
    exact ⟨_, _, _, rfl, rfl⟩
  · intro ops g f pr gr k2 sp hdh hh h3 h4
    unfold falling_tick
    simp only [hdh, hh, Bool.not_false, Bool.and_self, if_true]
    try dsimp only
    rw [h3]
    try dsimp only
    rw [h4]
    exact ⟨_, _, rfl, rfl⟩
  · intro g rot tsp b f flag evs p hf h2
    subst hf
    simp only [try_rotate, if_true]
    rw [h2]
  · intro g shf dx b f flag evs p hf h2
    subst hf
    simp only [try_shift, if_true]
    rw [h2]

/-- `constOps lr0` with a non-empty hold slot. -/
def holdOps : Ops Unit Unit Unit Unit :=
  { constOps lr0 with hold := fun b _ => (b, some ()) }

/-- A generic falling state over the degenerate board. -/
def f0 : FallingState Unit :=
  { piece := (), lowest_y := 0, rotation_move_count := 0, gravity := 100,
    lock_delay := 30, soft_drop_delay := 0 }

/-- A controller sample pressing only hold. -/
def cHold : Controller := { hold := true }

/-- Witness for C4 at concrete inputs: a queue spawn, a post-hold swap
spawn, and a successful shift with `lock_delay = 7` in the config. -/
theorem spawn_lock_delay_constants_witness :
    (∃ g' evs pr', spawn_tick (constOps lr0) g0 () () = Except.ok (g', evs, pr', ()) ∧
      g'.state = GameState.Falling
        { piece := (), lowest_y := 0, rotation_move_count := 0,
          gravity := g0.config.gravity, lock_delay := 30, soft_drop_delay := 0 }) ∧
    (∃ g' evs, falling_tick holdOps { g0 with used := cHold } f0 () () =
        Except.ok (g', evs, (), ()) ∧
      g'.state = GameState.Falling
        { piece := (), lowest_y := 0, rotation_move_count := 0,
          gravity := g0.config.gravity, lock_delay := 30, soft_drop_delay := 0 }) ∧
    (try_shift (K := Unit) (fun _ _ _ _ => some ()) 1
        ({ g0 with config := { cfg0 with lock_delay := 7 } } : Game Unit Unit).config.lock_delay
        () f0 true []).1.lock_delay =
      ({ g0 with config := { cfg0 with lock_delay := 7 } } : Game Unit Unit).config.lock_delay :=
  ⟨(spawn_lock_delay_constants (B := Unit) (P := Unit) (K := Unit) (R := Unit)).1
     (constOps lr0) g0 () () () () rfl rfl,
   (spawn_lock_delay_constants (B := Unit) (P := Unit) (K := Unit) (R := Unit)).2.1
     holdOps { g0 with used := cHold } f0 () () () () rfl rfl rfl rfl,
   (spawn_lock_delay_constants (B := Unit) (P := Unit) (K := Unit) (R := Unit)).2.2.2
     { g0 with config := { cfg0 with lock_delay := 7 } }
     (fun _ _ _ _ => some ()) 1 () f0 true [] () rfl rfl⟩

/-! ## Claim C1: the 15-move lock rule -/

/-- `deal_garbage` only appends to the event list it is given. -/
theorem deal_garbage_prefix (ops : Ops B P K R) (g : Game B P) (evs : List (Event P K))
    (r : R) : ∃ extra, (deal_garbage ops g evs r).2.1 = evs ++ extra := by
  unfold deal_garbage
  dsimp only
  split_ifs <;> first
  | exact ⟨_, rfl⟩
  | exact ⟨[], by simp⟩

/-- `lock` appends `PiecePlaced` for the locked piece (followed only by
further events) to the event list it is given. -/
theorem lock_prefix (ops : Ops B P K R) (g : Game B P) (f : FallingState P)
    (evs : List (Event P K)) (r : R) (dist : Option Int) :
    ∃ lr extra, (lock ops g f evs r dist).2.1 =
      evs ++ Event.PiecePlaced f.piece lr dist :: extra := by
  unfold lock
  dsimp only
  split_ifs with h1 h2
  · exact ⟨(ops.lock_piece g.board f.piece).2, [Event.GameOver], by simp⟩
  · obtain ⟨extra, hx⟩ := deal_garbage_prefix (K := K) ops
      { g with
          did_hold := false, board := (ops.lock_piece g.board f.piece).1,
          state := GameState.SpawnDelay g.config.spawn_delay }
      (evs ++ [Event.PiecePlaced f.piece (ops.lock_piece g.board f.piece).2 dist]) r
    exact ⟨(ops.lock_piece g.board f.piece).2, extra, by rw [hx]; simp⟩
  · exact ⟨(ops.lock_piece g.board f.piece).2, [], by simp⟩

/-- Claim C1: in the `Falling` branch, after the tick's rotate/shift
processing and lowest-y update (i.e. at the entry of `falling_rest`), if
`rotation_move_count ≥ config.move_lock_rule` and the minimum cell y of the
sonic-dropped piece is `≥ lowest_y`, the piece is locked at the sonic-dropped
position within the same update — the tick's outcome is exactly the lock's
outcome and its events contain a `PiecePlaced` for the dropped piece — and
processing returns.  If the sonic-dropped minimum y is strictly below
`lowest_y`, the rule does not force a lock and the tick continues with the
hard-drop/lock-delay/gravity processing (`falling_after_rule`). -/
theorem move_lock_rule_spec (ops : Ops B P K R) (g : Game B P) (was_on_stack : Bool)
    (f : FallingState P) (events : List (Event P K)) (pr gr : R) :
    (g.config.move_lock_rule ≤ f.rotation_move_count →
     f.lowest_y ≤ ops.min_cell_y (ops.sonic_drop f.piece g.board) →
     falling_rest ops g was_on_stack f events pr gr =
       lock_tick ops g { f with piece := ops.sonic_drop f.piece g.board } events pr gr none ∧
     ∃ g' evs pr' gr' lr, falling_rest ops g was_on_stack f events pr gr =
       Except.ok (g', evs, pr', gr') ∧
       Event.PiecePlaced (ops.sonic_drop f.piece g.board) lr none ∈ evs) ∧
    (ops.min_cell_y (ops.sonic_drop f.piece g.board) < f.lowest_y →
     falling_rest ops g was_on_stack f events pr gr =
       falling_after_rule ops g was_on_stack f events pr gr) := by
  constructor
  · intro h1 h2
    have heq : falling_rest ops g was_on_stack f events pr gr =
        lock_tick ops g { f with piece := ops.sonic_drop f.piece g.board } events pr gr none := by
      unfold falling_rest
      dsimp only
      rw [if_pos ⟨h1, h2⟩]
    refine ⟨heq, ?_⟩
    obtain ⟨lr, extra, hx⟩ := lock_prefix ops g
      { f with piece := ops.sonic_drop f.piece g.board } events gr none
    rw [heq]
    refine ⟨_, _, _, _, lr, rfl, ?_⟩
    rw [hx]
    simp
  · intro h2
    unfold falling_rest
    dsimp only
    rw [if_neg]
    rintro ⟨-, hb⟩
    omega

/-- A falling state that has exhausted the 15-move allowance. -/
def f15 : FallingState Unit := { f0 with rotation_move_count := 15 }

/-- Witness for C1 at concrete inputs: with `rotation_move_count = 15` and
the dropped piece not below `lowest_y`, the rule locks; with `lowest_y`
strictly above the dropped position, the tick continues. -/
theorem move_lock_rule_spec_witness :
    (falling_rest (constOps lr0) g0 true f15 [] () () =
       lock_tick (constOps lr0) g0
         { f15 with piece := (constOps lr0).sonic_drop f15.piece g0.board } [] () () none ∧
     ∃ g' evs pr' gr' lr, falling_rest (constOps lr0) g0 true f15 [] () () =
       Except.ok (g', evs, pr', gr') ∧
       Event.PiecePlaced ((constOps lr0).sonic_drop f15.piece g0.board) lr none ∈ evs) ∧
    falling_rest (constOps lr0) g0 true { f15 with lowest_y := 1 } [] () () =
      falling_after_rule (constOps lr0) g0 true { f15 with lowest_y := 1 } [] () () :=
  ⟨(move_lock_rule_spec (constOps lr0) g0 true f15 [] () ()).1 (by decide) (by decide),
   (move_lock_rule_spec (constOps lr0) g0 true { f15 with lowest_y := 1 } [] () ()).2
     (by decide)⟩

/-! ## Claim C5: garbage cancel scenario

The claim (spec scenario S4) says a non-clearing lock whose `LockResult` has
`garbage_sent = 6` cancels an externally queued `garbage_queue = 4`.  In the
source, `attacking += locked.garbage_sent` happens only in the
line-clearing branch of `lock`; on a non-clearing lock `garbage_sent` is
ignored, so `deal_garbage` runs with the old `attacking` value (0 in the
scenario) and *injects* the queued garbage instead of cancelling it. -/

/-- The event list of a successful tick, `none` on a halt. -/
def upd_events (ops : Ops B P K R) (g : Game B P) (c : Controller) (pr gr : R) :
    Option (List (Event P K)) :=
  match update ops g c pr gr with
  | Except.ok x => some x.2.1
  | Except.error _ => none

/-- The resulting game of a successful tick, `none` on a halt. -/
def upd_game (ops : Ops B P K R) (g : Game B P) (c : Controller) (pr gr : R) :
    Option (Game B P) :=
  match update ops g c pr gr with
  | Except.ok x => some x.1
  | Except.error _ => none

/-- A non-clearing lock result claiming `garbage_sent = 6`. -/
def lr6 : LockResult := { locked_out := false, cleared_lines := [], garbage_sent := 6 }

/-- The degenerate board whose every lock returns `lr6`. -/
def ops5 : Ops Unit Unit Unit Unit := constOps lr6

/-- A falling game with `garbage_queue` set to 4 externally. -/
def g5 : Game Unit Unit := { g0 with state := GameState.Falling f0, garbage_queue := 4 }

/-- Counterexample to C5 as stated: with `garbage_queue = 4` and the next
lock a non-clearing one whose `LockResult` has `garbage_sent = 6` (hard drop
on the next tick), the update's events *do* contain a `GarbageAdded` (for
`min(4, max_garbage_add) = 2` rows), contain no `GarbageSent` at all, and
`garbage_queue` ends at 2, not 0. -/
theorem garbage_cancel_claim_cex :
    upd_events ops5 g5 cHD () () =
      some [Event.PiecePlaced () lr6 (some 0), Event.GarbageAdded [7, 7]] ∧
    (upd_game ops5 g5 cHD () ()).map Game.garbage_queue = some 2 :=
  ⟨rfl, rfl⟩

/-- Claim C5 (amended): garbage-vs-attack cancellation happens between
`pending_attack` (the `attacking` counter) and `garbage_queue`, not between
`LockResult.garbage_sent` and the queue.  If `pending_attack = 6` and
`garbage_queue = 4` when a non-clearing, non-locking-out lock occurs, then
the lock appends exactly `PiecePlaced` followed by `GarbageSent 2` (so no
`GarbageAdded` is appended), and afterwards `garbage_queue = 0` and
`pending_attack = 0`. -/
theorem garbage_cancel_scenario (ops : Ops B P K R) (g : Game B P) (f : FallingState P)
    (events : List (Event P K)) (r : R) (dist : Option Int)
    (ha : g.attacking = 6) (hq : g.garbage_queue = 4)
    (hlo : (ops.lock_piece g.board f.piece).2.locked_out = false)
    (hcl : (ops.lock_piece g.board f.piece).2.cleared_lines = []) :
    (lock ops g f events r dist).2.1 =
      events ++ [Event.PiecePlaced f.piece (ops.lock_piece g.board f.piece).2 dist,
        Event.GarbageSent 2] ∧
    (lock ops g f events r dist).1.garbage_queue = 0 ∧
    (lock ops g f events r dist).1.attacking = 0 := by
  unfold lock
  dsimp only
  rw [hlo, hcl]
  simp only [Bool.false_eq_true, if_false, List.isEmpty_nil, if_true]
  unfold deal_garbage
  dsimp only
  rw [ha, hq]
  norm_num

/-- Witness for the amended C5 at concrete inputs. -/
theorem garbage_cancel_scenario_witness :
    (lock ops5 { g0 with attacking := 6, garbage_queue := 4 } f0 [] () none).2.1 =
      [] ++ [Event.PiecePlaced f0.piece
          ((ops5.lock_piece { g0 with attacking := 6, garbage_queue := 4 }.board
            f0.piece)).2 none,
        Event.GarbageSent 2] ∧
    (lock ops5 { g0 with attacking := 6, garbage_queue := 4 } f0 [] () none).1.garbage_queue
      = 0 ∧
    (lock ops5 { g0 with attacking := 6, garbage_queue := 4 } f0 [] () none).1.attacking = 0 :=
  garbage_cancel_scenario ops5 { g0 with attacking := 6, garbage_queue := 4 } f0 [] () none
    rfl rfl rfl rfl

/-! ## Claim C10: termination of the gravity drop loop -/

/-- With `cfg_gravity ≥ 1` the gravity loop terminates: any fuel of at
least `(-grav).toNat + 1` — in particular the fuel `falling_after_rule`
passes — suffices, because each iteration increases the accumulator by at
least 1. -/
theorem gravity_loop_isSome (shf : P → B → Int → Int → Option P) (b : B) (c : Int)
    (hc : 1 ≤ c) :
    ∀ (n : Nat) (grav : Int) (p : P), (-grav).toNat ≤ n →
      (gravity_loop shf b c (n + 1) grav p).isSome = true := by
  intro n
  induction n with
  | zero =>
    intro grav p h
    have hg : ¬grav < 0 := by omega
    simp only [gravity_loop, if_neg hg, Option.isSome_some]
  | succ m ih =>
    intro grav p h
    by_cases hg : grav < 0
    · simp only [gravity_loop, if_pos hg]
      exact ih _ _ (by omega)
    · simp only [gravity_loop, if_neg hg, Option.isSome_some]

/-- With `cfg_gravity = 0` and a negative accumulator, no amount of fuel
exits the loop: the Rust `while` never terminates on such a tick. -/
theorem gravity_loop_zero_none (shf : P → B → Int → Int → Option P) (b : B) :
    ∀ (fuel : Nat) (grav : Int) (p : P), grav < 0 →
      gravity_loop shf b 0 fuel grav p = none := by
  intro fuel
  induction fuel with
  | zero => intro grav p h; simp only [gravity_loop, if_pos h]
  | succ m ih =>
    intro grav p h
    simp only [gravity_loop, if_pos h]
    simpa using ih (grav + 0) _ (by omega)

/-- `lock_tick` always succeeds. -/
theorem lock_tick_ne_error (ops : Ops B P K R) (g : Game B P) (f : FallingState P)
    (evs : List (Event P K)) (pr gr : R) (dist : Option Int) (e : Halt) :
    lock_tick ops g f evs pr gr dist ≠ Except.error e := by
  simp [lock_tick]

/-- `finish_tick` always succeeds. -/
theorem finish_tick_ne_error (ops : Ops B P K R) (g : Game B P) (f : FallingState P)
    (evs : List (Event P K)) (pr gr : R) (e : Halt) :
    finish_tick ops g f evs pr gr ≠ Except.error e := by
  simp [finish_tick]

/-- With `config.gravity ≥ 1`, the hard-drop/lock-delay/gravity part of the
falling branch never diverges in the gravity loop. -/
theorem falling_after_rule_ne_diverge (ops : Ops B P K R) (g : Game B P)
    (was_on_stack : Bool) (f : FallingState P) (events : List (Event P K)) (pr gr : R)
    (hg : 1 ≤ g.config.gravity) :
    falling_after_rule ops g was_on_stack f events pr gr ≠
      Except.error Halt.gravityDiverge := by
  unfold falling_after_rule
  dsimp only
  by_cases hd : g.used.hard_drop = true
  · rw [if_pos hd]
    exact lock_tick_ne_error _ _ _ _ _ _ _ _
  · rw [if_neg hd]
    by_cases hos : ops.on_stack g.board f.piece = true
    · rw [if_pos hos]
      cases hld : f.lock_delay with
      | zero => simp
      | succ d =>
        dsimp only
        by_cases hdz : d = 0
        · rw [if_pos hdz]
          exact lock_tick_ne_error _ _ _ _ _ _ _ _
        · rw [if_neg hdz]
          exact finish_tick_ne_error _ _ _ _ _ _ _
    · rw [if_neg hos]
      rcases hgl : gravity_loop ops.shift g.board g.config.gravity
          ((-(f.gravity - 100)).toNat + 1) (f.gravity - 100) f.piece with _ | gp
      · have hs := gravity_loop_isSome ops.shift g.board g.config.gravity hg
          ((-(f.gravity - 100)).toNat) (f.gravity - 100) f.piece (le_refl _)
        rw [hgl] at hs
        simp at hs
      · dsimp only
        split_ifs <;> exact finish_tick_ne_error _ _ _ _ _ _ _

/-- With `config.gravity ≥ 1`, `update` never diverges. -/
theorem update_ne_diverge (ops : Ops B P K R) (g : Game B P) (c : Controller) (pr gr : R)
    (hg : 1 ≤ g.config.gravity) :
    update ops g c pr gr ≠ Except.error Halt.gravityDiverge := by
  unfold update
  dsimp only
  rcases hs : g.state with n | n | f | _
  · rcases n with _ | m
    · unfold spawn_tick
      dsimp only
      intro h
      split at h
      · simp at h
      · split at h <;> simp at h
    · simp
  · rcases n with _ | m <;> simp
  · unfold falling_tick
    dsimp only
    intro h
    split at h
    · split at h
      · split at h <;> simp at h
      · simp at h
    · revert h
      unfold falling_rest
      dsimp only
      split
      · exact lock_tick_ne_error _ _ _ _ _ _ _ _
      · exact falling_after_rule_ne_diverge _ _ _ _ _ _ _ hg
  · simp

/-- Claim C10: the off-stack gravity drop loop terminates on every tick
provided `config.gravity ≥ 1` (the fuel `falling_after_rule` uses always
suffices, so `update` never reports divergence); for `config.gravity = 0`
an update tick entering the loop with a negative accumulator never exits it
(no fuel yields a result), so `update` is total only under the precondition
`config.gravity ≥ 1`. -/
theorem gravity_loop_termination :
    (∀ (shf : P → B → Int → Int → Option P) (b : B) (c : Int) (grav : Int) (p : P),
      1 ≤ c → (gravity_loop shf b c ((-grav).toNat + 1) grav p).isSome = true) ∧
    (∀ (shf : P → B → Int → Int → Option P) (b : B) (fuel : Nat) (grav : Int) (p : P),
      grav < 0 → gravity_loop shf b 0 fuel grav p = none) ∧
    (∀ (ops : Ops B P K R) (g : Game B P) (c : Controller) (pr gr : R),
      1 ≤ g.config.gravity → update ops g c pr gr ≠ Except.error Halt.gravityDiverge) :=
  ⟨fun shf b c grav p hc => gravity_loop_isSome shf b c hc _ grav p (le_refl _),
   fun shf b fuel grav p h => gravity_loop_zero_none shf b fuel grav p h,
   fun ops g c pr gr hg => update_ne_diverge ops g c pr gr hg⟩

/-- Witness for C10 at concrete inputs: a loop entered at accumulator
`-250` with gravity 1 terminates; with gravity 0 it yields nothing at fuel
5; and a full `update` under `cfg0` (gravity 100) does not diverge. -/
theorem gravity_loop_termination_witness :
    (gravity_loop (fun (_ : Unit) (_ : Unit) _ _ => some ()) () 1
        ((-(-250 : Int)).toNat + 1) (-250) ()).isSome = true ∧
    gravity_loop (fun (_ : Unit) (_ : Unit) _ _ => some ()) () 0 5 (-1) () = none ∧
    update (constOps lr0) g0 noInput () () ≠ Except.error Halt.gravityDiverge :=
  ⟨(gravity_loop_termination (B := Unit) (P := Unit) (K := Unit) (R := Unit)).1
     (fun _ _ _ _ => some ()) () 1 (-250) () (by norm_num),
   (gravity_loop_termination (B := Unit) (P := Unit) (K := Unit) (R := Unit)).2.1
     (fun _ _ _ _ => some ()) () 5 (-1) () (by norm_num),
   (gravity_loop_termination (B := Unit) (P := Unit) (K := Unit) (R := Unit)).2.2
     (constOps lr0) g0 noInput () () (by decide)⟩

/-! ## Claim C9: the `lock_delay -= 1` decrement never underflows when
`config.lock_delay ≥ 1` -/

/-- The lock-delay invariant: every active falling piece has a positive
lock-delay counter, so the `u32` decrement in the on-stack branch is safe. -/
def LdInv (g : Game B P) : Prop :=
  ∀ f, g.state = GameState.Falling f → 1 ≤ f.lock_delay

/-- `deal_garbage` leaves the state alone or tops the game out. -/
theorem deal_garbage_state (ops : Ops B P K R) (g : Game B P) (evs : List (Event P K))
    (r : R) :
    (deal_garbage ops g evs r).1.state = g.state ∨
    (deal_garbage ops g evs r).1.state = GameState.GameOver := by
  unfold deal_garbage
  dsimp only
  split_ifs <;> first
  | exact Or.inr rfl
  | exact Or.inl rfl

/-- `lock` never leaves the game in a `Falling` state. -/
theorem lock_not_falling (ops : Ops B P K R) (g : Game B P) (f : FallingState P)
    (evs : List (Event P K)) (r : R) (dist : Option Int) (f' : FallingState P) :
    (lock ops g f evs r dist).1.state ≠ GameState.Falling f' := by
  unfold lock
  dsimp only
  split_ifs with h1 h2
  · simp
  · rcases deal_garbage_state (K := K) ops _ _ r with h | h <;> rw [h] <;> simp
  · simp

/-- A successful rotation leaves `lock_delay` at the configured reset value;
a failed or unattempted one leaves it unchanged. -/
theorem try_rotate_lock_delay (rot : P → B → Option P) (tsp : P → Bool) (cl : Nat) (b : B)
    (f : FallingState P) (flag : Bool) (evs : List (Event P K)) :
    (try_rotate (K := K) rot tsp cl b f flag evs).1.lock_delay = f.lock_delay ∨
    (try_rotate (K := K) rot tsp cl b f flag evs).1.lock_delay = cl := by
  unfold try_rotate
  split
  · cases hro : rot f.piece b
    · exact Or.inl rfl
    · exact Or.inr rfl
  · exact Or.inl rfl

/-- Same for shifts. -/
theorem try_shift_lock_delay (shf : P → B → Int → Int → Option P) (dx : Int) (cl : Nat)
    (b : B) (f : FallingState P) (flag : Bool) (evs : List (Event P K)) :
    (try_shift (K := K) shf dx cl b f flag evs).1.lock_delay = f.lock_delay ∨
    (try_shift (K := K) shf dx cl b f flag evs).1.lock_delay = cl := by
  unfold try_shift
  split
  · cases hsh : shf f.piece b dx 0
    · exact Or.inl rfl
    · exact Or.inr rfl
  · exact Or.inl rfl

/-- Chaining the per-move lock-delay alternatives. -/
theorem step_or {a b c cl : Nat} (h1 : a = b ∨ a = cl) (h2 : b = c ∨ b = cl) :
    a = c ∨ a = cl := by
  rcases h1 with h1 | h1 <;> rcases h2 with h2 | h2 <;> simp [h1, h2]

/-- After the rotate/shift section, `lock_delay` is either untouched or
reset to the configured value. -/
theorem apply_moves_lock_delay (ops : Ops B P K R) (cl : Nat) (b : B) (u : Controller)
    (f : FallingState P) :
    (apply_moves ops cl b u f).1.lock_delay = f.lock_delay ∨
    (apply_moves ops cl b u f).1.lock_delay = cl := by
  unfold apply_moves
  dsimp only
  split <;>
    exact step_or (try_shift_lock_delay _ _ _ _ _ _ _)
      (step_or (try_shift_lock_delay _ _ _ _ _ _ _)
        (step_or (try_rotate_lock_delay _ _ _ _ _ _ _)
          (try_rotate_lock_delay _ _ _ _ _ _ _)))

/-- `lock_tick` results satisfy the invariant (the state is not falling). -/
theorem lock_tick_LdInv (ops : Ops B P K R) (g : Game B P) (f : FallingState P)
    (evs : List (Event P K)) (pr gr : R) (dist : Option Int) (g' : Game B P)
    (evs' : List (Event P K)) (pr' gr' : R)
    (hok : lock_tick ops g f evs pr gr dist = Except.ok (g', evs', pr', gr')) :
    LdInv g' := by
  unfold lock_tick at hok
  dsimp only at hok
  simp only [Except.ok.injEq, Prod.mk.injEq] at hok
  obtain ⟨hg', -⟩ := hok
  subst hg'
  intro f' hf'
  exact absurd hf' (lock_not_falling _ _ _ _ _ _ _)

/-- `finish_tick` preserves the invariant when the stored falling state has
a positive lock delay. -/
theorem finish_tick_LdInv (ops : Ops B P K R) (g : Game B P) (f : FallingState P)
    (evs : List (Event P K)) (pr gr : R) (g' : Game B P) (evs' : List (Event P K))
    (pr' gr' : R)
    (hok : finish_tick ops g f evs pr gr = Except.ok (g', evs', pr', gr'))
    (hf : 1 ≤ f.lock_delay) : LdInv g' := by
  unfold finish_tick at hok
  dsimp only at hok
  simp only [Except.ok.injEq, Prod.mk.injEq] at hok
  obtain ⟨hg', -⟩ := hok
  subst hg'
  intro f' hf'
  have h2 : GameState.Falling (P := P) f = GameState.Falling f' := hf'
  cases h2
  exact hf

/-- Any successful outcome of the post-move falling processing satisfies the
invariant, provided `config.lock_delay ≥ 1`: every state stored back is
either non-falling (a lock), carries the just-decremented positive counter,
or carries the configured reset value. -/
theorem falling_after_rule_LdInv (ops : Ops B P K R) (g : Game B P) (was_on_stack : Bool)
    (f : FallingState P) (events : List (Event P K)) (pr gr : R) (g' : Game B P)
    (evs' : List (Event P K)) (pr' gr' : R)
    (hcl : 1 ≤ g.config.lock_delay)
    (hok : falling_after_rule ops g was_on_stack f events pr gr =
      Except.ok (g', evs', pr', gr')) : LdInv g' := by
  unfold falling_after_rule at hok
  dsimp only at hok
  by_cases hd : g.used.hard_drop = true
  · rw [if_pos hd] at hok
    exact lock_tick_LdInv _ _ _ _ _ _ _ _ _ _ _ hok
  · rw [if_neg hd] at hok
    by_cases hos : ops.on_stack g.board f.piece = true
    · rw [if_pos hos] at hok
      cases hld : f.lock_delay with
      | zero => rw [hld] at hok; simp at hok
      | succ d =>
        rw [hld] at hok
        dsimp only at hok
        by_cases hdz : d = 0
        · rw [if_pos hdz] at hok
          exact lock_tick_LdInv _ _ _ _ _ _ _ _ _ _ _ hok
        · rw [if_neg hdz] at hok
          exact finish_tick_LdInv _ _ _ _ _ _ _ _ _ _ hok (by dsimp only; omega)
    · rw [if_neg hos] at hok
      rcases hgl : gravity_loop ops.shift g.board g.config.gravity
          ((-(f.gravity - 100)).toNat + 1) (f.gravity - 100) f.piece with _ | gp <;>
        rw [hgl] at hok
      · simp at hok
      · dsimp only at hok
        split_ifs at hok <;> exact finish_tick_LdInv _ _ _ _ _ _ _ _ _ _ hok hcl

/-- The whole falling branch preserves the invariant when
`config.lock_delay ≥ 1` (a hold-spawn stores the constant 30). -/
theorem falling_tick_LdInv (ops : Ops B P K R) (g : Game B P) (f : FallingState P)
    (pr gr : R) (g' : Game B P) (evs' : List (Event P K)) (pr' gr' : R)
    (hcl : 1 ≤ g.config.lock_delay)
    (hok : falling_tick ops g f pr gr = Except.ok (g', evs', pr', gr')) : LdInv g' := by
  unfold falling_tick at hok
  dsimp only at hok
  split at hok
  · split at hok
    · split at hok
      · simp only [Except.ok.injEq, Prod.mk.injEq] at hok
        obtain ⟨hg', -⟩ := hok
        subst hg'
        intro f' hf'
        have h2 : GameState.Falling (P := P) _ = GameState.Falling f' := hf'
        cases h2
        exact by simp
      · simp only [Except.ok.injEq, Prod.mk.injEq] at hok
        obtain ⟨hg', -⟩ := hok
        subst hg'
        intro f' hf'
        have h2 : GameState.GameOver (P := P) = GameState.Falling f' := hf'
        cases h2
    · simp only [Except.ok.injEq, Prod.mk.injEq] at hok
      obtain ⟨hg', -⟩ := hok
      subst hg'
      intro f' hf'
      have h2 : GameState.SpawnDelay (P := P) _ = GameState.Falling f' := hf'
      cases h2
  · revert hok
    unfold falling_rest
    dsimp only
    split
    · intro hok
      exact lock_tick_LdInv _ _ _ _ _ _ _ _ _ _ _ hok
    · intro hok
      refine falling_after_rule_LdInv _ _ _ _ _ _ _ _ _ _ _ ?_ hok
      exact hcl

/-- A successful `update` preserves the invariant when
`config.lock_delay ≥ 1`. -/
theorem update_LdInv (ops : Ops B P K R) (g : Game B P) (c : Controller) (pr gr : R)
    (g' : Game B P) (evs : List (Event P K)) (pr' gr' : R)
    (hcl : 1 ≤ g.config.lock_delay)
    (hok : update ops g c pr gr = Except.ok (g', evs, pr', gr')) : LdInv g' := by
  unfold update at hok
  dsimp only at hok
  rcases hs : g.state with n | n | f | _ <;> rw [hs] at hok <;> try dsimp only at hok
  · rcases n with _ | m
    · unfold spawn_tick at hok
      try dsimp only at hok
      split at hok
      · simp at hok
      · try dsimp only at hok
        split at hok
        · simp only [Except.ok.injEq, Prod.mk.injEq] at hok
          obtain ⟨hg', -⟩ := hok
          subst hg'
          intro f' hf'
          have h2 : GameState.Falling (P := P) _ = GameState.Falling f' := hf'
          cases h2
          exact by simp
        · simp only [Except.ok.injEq, Prod.mk.injEq] at hok
          obtain ⟨hg', -⟩ := hok
          subst hg'
          intro f' hf'
          have h2 : GameState.GameOver (P := P) = GameState.Falling f' := hf'
          cases h2
    · simp only [Except.ok.injEq, Prod.mk.injEq] at hok
      obtain ⟨hg', -⟩ := hok
      subst hg'
      intro f' hf'
      have h2 : GameState.SpawnDelay (P := P) m = GameState.Falling f' := hf'
      cases h2
  · rcases n with _ | m
    · dsimp only at hok
      simp only [Except.ok.injEq, Prod.mk.injEq] at hok
      obtain ⟨hg', -⟩ := hok
      subst hg'
      intro f' hf'
      rcases deal_garbage_state (K := K) ops _ [Event.EndOfLineClearDelay] gr with h | h <;>
        rw [h] at hf' <;> cases hf'
    · simp only [Except.ok.injEq, Prod.mk.injEq] at hok
      obtain ⟨hg', -⟩ := hok
      subst hg'
      intro f' hf'
      have h2 : GameState.LineClearDelay (P := P) m = GameState.Falling f' := hf'
      cases h2
  · refine falling_tick_LdInv _ _ _ _ _ _ _ _ _ ?_ hok
    exact hcl
  · simp only [Except.ok.injEq, Prod.mk.injEq] at hok
    obtain ⟨hg', -⟩ := hok
    subst hg'
    intro f' hf'
    have h2 : GameState.GameOver (P := P) = GameState.Falling f' := hf'
    cases h2

/-- The post-move falling processing never underflows the lock-delay
counter when both the configured value and the incoming counter are
positive. -/
theorem falling_after_rule_ne_underflow (ops : Ops B P K R) (g : Game B P)
    (was_on_stack : Bool) (f : FallingState P) (events : List (Event P K)) (pr gr : R)
    (hf : 1 ≤ f.lock_delay) :
    falling_after_rule ops g was_on_stack f events pr gr ≠
      Except.error Halt.lockDelayUnderflow := by
  unfold falling_after_rule
  dsimp only
  by_cases hd : g.used.hard_drop = true
  · rw [if_pos hd]
    exact lock_tick_ne_error _ _ _ _ _ _ _ _
  · rw [if_neg hd]
    by_cases hos : ops.on_stack g.board f.piece = true
    · rw [if_pos hos]
      cases hld : f.lock_delay with
      | zero => omega
      | succ d =>
        dsimp only
        by_cases hdz : d = 0
        · rw [if_pos hdz]
          exact lock_tick_ne_error _ _ _ _ _ _ _ _
        · rw [if_neg hdz]
          exact finish_tick_ne_error _ _ _ _ _ _ _
    · rw [if_neg hos]
      rcases hgl : gravity_loop ops.shift g.board g.config.gravity
          ((-(f.gravity - 100)).toNat + 1) (f.gravity - 100) f.piece with _ | gp
      · simp
      · dsimp only
        split_ifs <;> exact finish_tick_ne_error _ _ _ _ _ _ _

/-- With `config.lock_delay ≥ 1` and the invariant, `update` never reports
a lock-delay underflow. -/
theorem update_ne_underflow (ops : Ops B P K R) (g : Game B P) (c : Controller) (pr gr : R)
    (hcl : 1 ≤ g.config.lock_delay) (hinv : LdInv g) :
    update ops g c pr gr ≠ Except.error Halt.lockDelayUnderflow := by
  unfold update
  dsimp only
  rcases hs : g.state with n | n | f | _
  · rcases n with _ | m
    · unfold spawn_tick
      dsimp only
      intro h
      split at h
      · simp at h
      · split at h <;> simp at h
    · simp
  · rcases n with _ | m <;> simp
  · unfold falling_tick
    dsimp only
    intro h
    split at h
    · split at h
      · split at h <;> simp at h
      · simp at h
    · revert h
      unfold falling_rest
      dsimp only
      split
      · exact lock_tick_ne_error _ _ _ _ _ _ _ _
      · refine falling_after_rule_ne_underflow _ _ _ _ _ _ _ ?_
        rcases apply_moves_lock_delay ops g.config.lock_delay g.board
            (input_phase g.config g.prev g.used g.das_delay c).1 f with hm | hm <;>
          rw [hm]
        · exact hinv f hs
        · exact hcl
  · simp

/-- The `(x, y)`-plane board for the concrete underflow run: column 0 has
its floor at `y = 0`, column 1 at `y = -1`; a position is valid iff it is
in one of the two columns and not below its floor. -/
def valid9 : Int × Int → Bool :=
  fun q => (q.1 == 0 && decide (0 ≤ q.2)) || (q.1 == 1 && decide (-1 ≤ q.2))

/-- Board operations for the underflow scenario, consistent with the board
contract: `on_stack` holds iff the downward shift is invalid. -/
def cexOps9 : Ops Unit (Int × Int) Unit Unit :=
  { newBoard := (), generate_next_piece := fun _ r => ((), r),
    advance_queue := fun b => (b, some ()),
    add_next_piece := fun b _ => b,
    spawn := fun _ _ => some (0, 0),
    hold := fun b _ => (b, none),
    on_stack := fun _ p => !valid9 (p.1, p.2 - 1),
    cw := fun _ _ => none, ccw := fun _ _ => none,
    shift := fun p _ dx dy =>
      if valid9 (p.1 + dx, p.2 + dy) then some (p.1 + dx, p.2 + dy) else none,
    sonic_drop := fun p _ => (p.1, if p.1 == 0 then 0 else -1),
    min_cell_y := fun p => p.2, pos_y := fun p => p.2,
    is_tspin := fun _ => false, kind := fun _ => (),
    lock_piece := fun b _ => (b, lr0),
    gen_range10 := fun r => (3, r), gen_bool3 := fun r => (false, r),
    add_garbage := fun b _ => (b, false) }

/-- A configuration with `lock_delay = 0`. -/
def cfg9 : GameConfig := { cfg0 with lock_delay := 0 }

/-- The falling piece resting at `(0, 0)` (on stack in column 0). -/
def f9 : FallingState (Int × Int) :=
  { piece := (0, 0), lowest_y := 0, rotation_move_count := 0, gravity := 100,
    lock_delay := 1, soft_drop_delay := 0 }

/-- The underflow-scenario game under `cfg9`. -/
def g9 : Game Unit (Int × Int) :=
  { board := (), state := GameState.Falling f9, config := cfg9, did_hold := false,
    prev := noInput, used := noInput, das_delay := 10, garbage_queue := 0, attacking := 0 }

/-- A controller sample pressing only right. -/
def cRight : Controller := { right := true }

/-- The lock-delay counter of the active piece. -/
def falling_lock_delay (g : Game B P) : Option Nat :=
  match g.state with
  | GameState.Falling f => some f.lock_delay
  | _ => none

/-- The resulting game of a successful run, `none` on a halt. -/
def run_game (ops : Ops B P K R) (g : Game B P) (cs : List Controller) (pr gr : R) :
    Option (Game B P) :=
  match run ops g cs pr gr with
  | Except.ok x => some x.1
  | Except.error _ => none

/-- A fresh game satisfies the lock-delay invariant (its state is a spawn
delay, not a falling piece). -/
theorem new_game_LdInv (ops : Ops B P K R) (cfg : GameConfig) (r : R) :
    LdInv ((new_game ops cfg r).1 : Game B P) := by
  intro f hf
  have h2 : GameState.SpawnDelay (P := P) cfg.spawn_delay = GameState.Falling f := hf
  cases h2

/-- Claim C9: (i) a fresh game satisfies the lock-delay invariant; (ii) with
`config.lock_delay ≥ 1` every successful `update` preserves it, so every
reachable falling state has `lock_delay ≥ 1` whenever the decrement
executes; (iii) under the invariant the decrement never underflows; and
(iv) with `config.lock_delay = 0` a successful shift of a piece that was
on stack sets `lock_delay` to 0 and the next tick that enters the on-stack
branch underflows the `u32` subtraction: in the concrete run, after the
shift tick the counter is 0, and the third tick halts with
`lockDelayUnderflow`. -/
theorem lock_delay_no_underflow :
    (∀ (ops : Ops B P K R) (cfg : GameConfig) (r : R),
      LdInv ((new_game ops cfg r).1 : Game B P)) ∧
    (∀ (ops : Ops B P K R) (g : Game B P) (c : Controller) (pr gr : R) (g' : Game B P)
        (evs : List (Event P K)) (pr' gr' : R), 1 ≤ g.config.lock_delay →
      update ops g c pr gr = Except.ok (g', evs, pr', gr') → LdInv g') ∧
    (∀ (ops : Ops B P K R) (g : Game B P) (c : Controller) (pr gr : R),
      1 ≤ g.config.lock_delay → LdInv g →
      update ops g c pr gr ≠ Except.error Halt.lockDelayUnderflow) ∧
    ((run_game cexOps9 g9 [cRight] () ()).bind falling_lock_delay = some 0 ∧
      run cexOps9 g9 [cRight, noInput, noInput] () () =
        Except.error Halt.lockDelayUnderflow) :=
  ⟨fun ops cfg r => new_game_LdInv ops cfg r,
   fun ops g c pr gr g' evs pr' gr' hcl hok =>
     update_LdInv ops g c pr gr g' evs pr' gr' hcl hok,
   fun ops g c pr gr hcl hinv => update_ne_underflow ops g c pr gr hcl hinv,
   ⟨rfl, rfl⟩⟩

/-- A falling game under `cfg0` (lock delay 30) for the C9 witness. -/
def g9w : Game Unit Unit := { g0 with state := GameState.Falling f0 }

/-- Witness for C9 at concrete inputs: with `config.lock_delay = 30 ≥ 1`
and a falling piece with counter 30, the tick does not underflow. -/
theorem lock_delay_no_underflow_witness :
    update (constOps lr0) g9w noInput () () ≠ Except.error Halt.lockDelayUnderflow :=
  (lock_delay_no_underflow (B := Unit) (P := Unit) (K := Unit) (R := Unit)).2.2.1
    (constOps lr0) g9w noInput () () (by decide)
    (fun f hf => by
      have h2 : GameState.Falling (P := Unit) f0 = GameState.Falling f := hf
      cases h2
      decide)

/-! ## Claim C8: at most one `PieceHeld` between successive `PiecePlaced` -/

/-- Discriminator for `PieceHeld` events. -/
def isHeld : Event P K → Bool
  | Event.PieceHeld _ => true
  | _ => false

/-- Discriminator for `PiecePlaced` events. -/
def isPlaced : Event P K → Bool
  | Event.PiecePlaced _ _ _ => true
  | _ => false

/-- Scan an event stream keeping the number of `PieceHeld` events seen since
the last `PiecePlaced`; fail (`none`) as soon as any such segment would
contain two `PieceHeld`. -/
def scanSeg : Nat → List (Event P K) → Option Nat
  | c, [] => some c
  | c, e :: rest =>
    if isHeld e then (if c = 0 then scanSeg 1 rest else none)
    else if isPlaced e then scanSeg 0 rest
    else scanSeg c rest

theorem scanSeg_append (c : Nat) (xs ys : List (Event P K)) :
    scanSeg c (xs ++ ys) = (scanSeg c xs).bind (fun c' => scanSeg c' ys) := by
  induction xs generalizing c with
  | nil => simp [scanSeg]
  | cons e rest ih =>
    simp only [List.cons_append, scanSeg]
    split_ifs <;> simp [ih]

theorem scanSeg_no_held : ∀ (evs : List (Event P K)), evs.countP isHeld = 0 →
    ∀ c, scanSeg c evs = some (if evs.countP isPlaced = 0 then c else 0) := by
  intro evs
  induction evs with
  | nil => intro _ c; simp [scanSeg]
  | cons e rest ih =>
    intro h c
    rw [List.countP_cons] at h
    by_cases he : isHeld e = true
    · rw [if_pos he] at h; omega
    · rw [if_neg he] at h
      have hr : rest.countP isHeld = 0 := by omega
      by_cases hp : isPlaced e = true
      · simp only [scanSeg]
        rw [if_neg he, if_pos hp, ih hr 0]
        simp [List.countP_cons, hp]
      · simp only [scanSeg]
        rw [if_neg he, if_neg hp, ih hr c]
        simp [List.countP_cons, hp]

theorem scanSeg_one_held : ∀ (evs : List (Event P K)), evs.countP isHeld = 1 →
    evs.countP isPlaced = 0 → scanSeg 0 evs = some 1 := by
  intro evs
  induction evs with
  | nil => intro h _; simp at h
  | cons e rest ih =>
    intro hh hp
    rw [List.countP_cons] at hh hp
    by_cases hpe : isPlaced e = true
    · rw [if_pos hpe] at hp; omega
    · rw [if_neg hpe] at hp
      by_cases hhe : isHeld e = true
      · rw [if_pos hhe] at hh
        have h0 : rest.countP isHeld = 0 := by omega
        simp only [scanSeg]
        rw [if_pos hhe, if_pos trivial, scanSeg_no_held rest h0 1,
          if_pos (show rest.countP isPlaced = 0 by omega)]
      · rw [if_neg hhe] at hh
        simp only [scanSeg]
        rw [if_neg hhe, if_neg hpe]
        exact ih (by omega) (by omega)

theorem scanSeg_free_zero : ∀ (rest : List (Event P K)), rest.countP isPlaced = 0 →
    ∀ c', scanSeg 1 rest = some c' → rest.countP isHeld = 0 := by
  intro rest
  induction rest with
  | nil => intro _ c' _; simp
  | cons e r ih =>
    intro hp c' hs
    rw [List.countP_cons] at hp
    by_cases hhe : isHeld e = true
    · simp only [scanSeg] at hs
      rw [if_pos hhe] at hs
      simp at hs
    · by_cases hpe : isPlaced e = true
      · rw [if_pos hpe] at hp; omega
      · simp only [scanSeg] at hs
        rw [if_neg hhe, if_neg hpe] at hs
        have := ih (by omega) c' hs
        rw [List.countP_cons, if_neg hhe]
        omega

theorem scanSeg_free_le_one : ∀ (ys : List (Event P K)), ys.countP isPlaced = 0 →
    ∀ c', scanSeg 0 ys = some c' → ys.countP isHeld ≤ 1 := by
  intro ys
  induction ys with
  | nil => intro _ c' _; simp
  | cons e r ih =>
    intro hp c' hs
    rw [List.countP_cons] at hp
    by_cases hhe : isHeld e = true
    · simp only [scanSeg] at hs
      rw [if_pos hhe, if_pos trivial] at hs
      have h0 := scanSeg_free_zero r (by omega) c' hs
      rw [List.countP_cons, h0, if_pos hhe]
    · by_cases hpe : isPlaced e = true
      · rw [if_pos hpe] at hp; omega
      · simp only [scanSeg] at hs
        rw [if_neg hhe, if_neg hpe] at hs
        have := ih (by omega) c' hs
        rw [List.countP_cons, if_neg hhe]
        omega

/-- `deal_garbage` appends only garbage/game-over events and does not touch
`did_hold`. -/
theorem deal_garbage_counts (ops : Ops B P K R) (g : Game B P) (evs : List (Event P K))
    (r : R) :
    ∃ extra, (deal_garbage ops g evs r).2.1 = evs ++ extra ∧
      extra.countP isHeld = 0 ∧ extra.countP isPlaced = 0 ∧
      (deal_garbage ops g evs r).1.did_hold = g.did_hold := by
  unfold deal_garbage
  dsimp only
  split_ifs <;>
    first
    | exact ⟨_, rfl, by simp [List.countP_cons, isHeld], by simp [List.countP_cons, isPlaced],
        rfl⟩
    | exact ⟨[], by simp, by simp, by simp, rfl⟩

/-- `lock` appends exactly one `PiecePlaced` (plus non-held, non-placed
events) and clears `did_hold`. -/
theorem lock_counts (ops : Ops B P K R) (g : Game B P) (f : FallingState P)
    (evs : List (Event P K)) (r : R) (dist : Option Int) :
    ∃ extra, (lock ops g f evs r dist).2.1 = evs ++ extra ∧
      extra.countP isHeld = 0 ∧ extra.countP isPlaced = 1 ∧
      (lock ops g f evs r dist).1.did_hold = false := by
  unfold lock
  dsimp only
  split_ifs with h1 h2
  · exact ⟨[Event.PiecePlaced f.piece (ops.lock_piece g.board f.piece).2 dist, Event.GameOver],
      by simp, by simp [List.countP_cons, isHeld], by simp [List.countP_cons, isPlaced], rfl⟩
  · obtain ⟨extra, he, hh, hp, hd⟩ := deal_garbage_counts (K := K) ops
      { g with
          did_hold := false, board := (ops.lock_piece g.board f.piece).1,
          state := GameState.SpawnDelay g.config.spawn_delay }
      (evs ++ [Event.PiecePlaced f.piece (ops.lock_piece g.board f.piece).2 dist]) r
    refine ⟨Event.PiecePlaced f.piece (ops.lock_piece g.board f.piece).2 dist :: extra,
      ?_, ?_, ?_, hd⟩
    · rw [he]; simp
    · simp [List.countP_cons, isHeld, hh]
    · simp [List.countP_cons, isPlaced, hp]
  · exact ⟨[Event.PiecePlaced f.piece (ops.lock_piece g.board f.piece).2 dist],
      by simp, by simp [List.countP_cons, isHeld], by simp [List.countP_cons, isPlaced], rfl⟩

/-- Count form of `lock_tick`. -/
theorem lock_tick_counts (ops : Ops B P K R) (g : Game B P) (f : FallingState P)
    (evs : List (Event P K)) (pr gr : R) (dist : Option Int) (g' : Game B P)
    (evs' : List (Event P K)) (pr' gr' : R)
    (hok : lock_tick ops g f evs pr gr dist = Except.ok (g', evs', pr', gr')) :
    ∃ extra, evs' = evs ++ extra ∧ extra.countP isHeld = 0 ∧ extra.countP isPlaced = 1 ∧
      g'.did_hold = false := by
  unfold lock_tick at hok
  dsimp only at hok
  simp only [Except.ok.injEq, Prod.mk.injEq] at hok
  obtain ⟨hg, hevs, -⟩ := hok
  obtain ⟨extra, he, hh, hp, hd⟩ := lock_counts ops g f evs gr dist
  refine ⟨extra, ?_, hh, hp, ?_⟩
  · rw [← hevs]; exact he
  · rw [← hg]; exact hd

/-- Count form of `finish_tick`. -/
theorem finish_tick_counts (ops : Ops B P K R) (g : Game B P) (f : FallingState P)
    (evs : List (Event P K)) (pr gr : R) (g' : Game B P) (evs' : List (Event P K))
    (pr' gr' : R)
    (hok : finish_tick ops g f evs pr gr = Except.ok (g', evs', pr', gr')) :
    evs'.countP isHeld = evs.countP isHeld ∧ evs'.countP isPlaced = evs.countP isPlaced ∧
    g'.did_hold = g.did_hold := by
  unfold finish_tick at hok
  dsimp only at hok
  simp only [Except.ok.injEq, Prod.mk.injEq] at hok
  obtain ⟨hg, hevs, -⟩ := hok
  refine ⟨?_, ?_, ?_⟩
  · rw [← hevs]; simp [List.countP_append, List.countP_cons, isHeld]
  · rw [← hevs]; simp [List.countP_append, List.countP_cons, isPlaced]
  · rw [← hg]

/-- A rotation attempt appends only rotate/spin events. -/
theorem try_rotate_counts (rot : P → B → Option P) (tsp : P → Bool) (cl : Nat) (b : B)
    (f : FallingState P) (flag : Bool) (evs : List (Event P K)) :
    ((try_rotate (K := K) rot tsp cl b f flag evs).2.2).countP isHeld =
      evs.countP isHeld ∧
    ((try_rotate (K := K) rot tsp cl b f flag evs).2.2).countP isPlaced =
      evs.countP isPlaced := by
  unfold try_rotate
  split
  · cases hro : rot f.piece b
    · exact ⟨rfl, rfl⟩
    · constructor <;>
        (dsimp only; split <;> simp [List.countP_append, List.countP_cons, isHeld, isPlaced])
  · exact ⟨rfl, rfl⟩

/-- A shift attempt appends only `PieceMoved`. -/
theorem try_shift_counts (shf : P → B → Int → Int → Option P) (dx : Int) (cl : Nat) (b : B)
    (f : FallingState P) (flag : Bool) (evs : List (Event P K)) :
    ((try_shift (K := K) shf dx cl b f flag evs).2.2).countP isHeld = evs.countP isHeld ∧
    ((try_shift (K := K) shf dx cl b f flag evs).2.2).countP isPlaced =
      evs.countP isPlaced := by
  unfold try_shift
  split
  · cases hsh : shf f.piece b dx 0
    · exact ⟨rfl, rfl⟩
    · constructor <;> simp [List.countP_append, List.countP_cons, isHeld, isPlaced]
  · exact ⟨rfl, rfl⟩

/-- The rotate/shift section emits no holds and no locks. -/
theorem apply_moves_counts (ops : Ops B P K R) (cl : Nat) (b : B) (u : Controller)
    (f : FallingState P) :
    ((apply_moves ops cl b u f).2.2).countP isHeld = 0 ∧
    ((apply_moves ops cl b u f).2.2).countP isPlaced = 0 := by
  unfold apply_moves
  dsimp only
  have h1 := try_rotate_counts (K := K) ops.cw ops.is_tspin cl b f u.rotate_right []
  have h2 := try_rotate_counts (K := K) ops.ccw ops.is_tspin cl b
    (try_rotate (K := K) ops.cw ops.is_tspin cl b f u.rotate_right []).1 u.rotate_left
    (try_rotate (K := K) ops.cw ops.is_tspin cl b f u.rotate_right []).2.2
  have h3 := try_shift_counts (K := K) ops.shift (-1) cl b
    (try_rotate (K := K) ops.ccw ops.is_tspin cl b
      (try_rotate (K := K) ops.cw ops.is_tspin cl b f u.rotate_right []).1 u.rotate_left
      (try_rotate (K := K) ops.cw ops.is_tspin cl b f u.rotate_right []).2.2).1 u.left
    (try_rotate (K := K) ops.ccw ops.is_tspin cl b
      (try_rotate (K := K) ops.cw ops.is_tspin cl b f u.rotate_right []).1 u.rotate_left
      (try_rotate (K := K) ops.cw ops.is_tspin cl b f u.rotate_right []).2.2).2.2
  have h4 := try_shift_counts (K := K) ops.shift 1 cl b
    (try_shift (K := K) ops.shift (-1) cl b
      (try_rotate (K := K) ops.ccw ops.is_tspin cl b
        (try_rotate (K := K) ops.cw ops.is_tspin cl b f u.rotate_right []).1 u.rotate_left
        (try_rotate (K := K) ops.cw ops.is_tspin cl b f u.rotate_right []).2.2).1 u.left
      (try_rotate (K := K) ops.ccw ops.is_tspin cl b
        (try_rotate (K := K) ops.cw ops.is_tspin cl b f u.rotate_right []).1 u.rotate_left
        (try_rotate (K := K) ops.cw ops.is_tspin cl b f u.rotate_right []).2.2).2.2).1 u.right
    (try_shift (K := K) ops.shift (-1) cl b
      (try_rotate (K := K) ops.ccw ops.is_tspin cl b
        (try_rotate (K := K) ops.cw ops.is_tspin cl b f u.rotate_right []).1 u.rotate_left
        (try_rotate (K := K) ops.cw ops.is_tspin cl b f u.rotate_right []).2.2).1 u.left
      (try_rotate (K := K) ops.ccw ops.is_tspin cl b
        (try_rotate (K := K) ops.cw ops.is_tspin cl b f u.rotate_right []).1 u.rotate_left
        (try_rotate (K := K) ops.cw ops.is_tspin cl b f u.rotate_right []).2.2).2.2).2.2
  refine ⟨?_, ?_⟩
  · rw [h4.1, h3.1, h2.1, h1.1, List.countP_nil]
  · rw [h4.2, h3.2, h2.2, h1.2, List.countP_nil]

/-- The post-move falling processing either emits no hold/lock events and
preserves `did_hold`, or performs a lock: one `PiecePlaced` more and
`did_hold` cleared.  It never emits `PieceHeld`. -/
theorem falling_after_rule_hold_step (ops : Ops B P K R) (g : Game B P)
    (was_on_stack : Bool) (f : FallingState P) (events : List (Event P K)) (pr gr : R)
    (g' : Game B P) (evs' : List (Event P K)) (pr' gr' : R)
    (hok : falling_after_rule ops g was_on_stack f events pr gr =
      Except.ok (g', evs', pr', gr')) :
    (evs'.countP isHeld = events.countP isHeld ∧
     evs'.countP isPlaced = events.countP isPlaced ∧ g'.did_hold = g.did_hold) ∨
    (evs'.countP isHeld = events.countP isHeld ∧
     evs'.countP isPlaced = events.countP isPlaced + 1 ∧ g'.did_hold = false) := by
  unfold falling_after_rule at hok
  dsimp only at hok
  by_cases hd : g.used.hard_drop = true
  · rw [if_pos hd] at hok
    obtain ⟨extra, he, hh, hp, hdh⟩ := lock_tick_counts _ _ _ _ _ _ _ _ _ _ _ hok
    right
    refine ⟨?_, ?_, hdh⟩ <;> rw [he, List.countP_append] <;> omega
  · rw [if_neg hd] at hok
    by_cases hos : ops.on_stack g.board f.piece = true
    · rw [if_pos hos] at hok
      have hE1 : ((if was_on_stack = true then events
          else events ++ [Event.StackTouched]) : List (Event P K)).countP isHeld =
          events.countP isHeld := by
        split <;> simp [List.countP_append, List.countP_cons, isHeld]
      have hE2 : ((if was_on_stack = true then events
          else events ++ [Event.StackTouched]) : List (Event P K)).countP isPlaced =
          events.countP isPlaced := by
        split <;> simp [List.countP_append, List.countP_cons, isPlaced]
      cases hld : f.lock_delay with
      | zero => rw [hld] at hok; simp at hok
      | succ d =>
        rw [hld] at hok
        dsimp only at hok
        by_cases hdz : d = 0
        · rw [if_pos hdz] at hok
          obtain ⟨extra, he, hh, hp, hdh⟩ := lock_tick_counts _ _ _ _ _ _ _ _ _ _ _ hok
          right
          refine ⟨?_, ?_, hdh⟩ <;> rw [he, List.countP_append] <;>
            first
            | rw [hE1]; omega
            | rw [hE2]; omega
        · rw [if_neg hdz] at hok
          obtain ⟨hh, hp, hdh⟩ := finish_tick_counts _ _ _ _ _ _ _ _ _ _ hok
          left
          exact ⟨by rw [hh, hE1], by rw [hp, hE2], hdh⟩
    · rw [if_neg hos] at hok
      rcases hgl : gravity_loop ops.shift g.board g.config.gravity
          ((-(f.gravity - 100)).toNat + 1) (f.gravity - 100) f.piece with _ | gp <;>
        rw [hgl] at hok
      · simp at hok
      · dsimp only at hok
        split_ifs at hok <;>
          (obtain ⟨hh, hp, hdh⟩ := finish_tick_counts _ _ _ _ _ _ _ _ _ _ hok;
           left;
           exact ⟨by simp [hh, List.countP_append, List.countP_cons, isHeld],
             by simp [hp, List.countP_append, List.countP_cons, isPlaced], hdh⟩)

/-- Per-tick hold discipline of the falling branch: a hold tick (one
`PieceHeld`, no lock, `did_hold` was false and becomes true), a lock tick
(no `PieceHeld`, at least one `PiecePlaced`, `did_hold` cleared), or a
quiet tick (neither event, `did_hold` preserved). -/
theorem falling_tick_hold_step (ops : Ops B P K R) (g : Game B P) (f : FallingState P)
    (pr gr : R) (g' : Game B P) (evs : List (Event P K)) (pr' gr' : R)
    (hok : falling_tick ops g f pr gr = Except.ok (g', evs, pr', gr')) :
    (evs.countP isHeld = 0 ∧ evs.countP isPlaced = 0 ∧ g'.did_hold = g.did_hold) ∨
    (evs.countP isHeld = 0 ∧ 0 < evs.countP isPlaced ∧ g'.did_hold = false) ∨
    (evs.countP isHeld = 1 ∧ evs.countP isPlaced = 0 ∧ g.did_hold = false ∧
      g'.did_hold = true) := by
  unfold falling_tick at hok
  dsimp only at hok
  split at hok
  · rename_i hcond
    have hdh : g.did_hold = false := by
      rcases Bool.and_eq_true _ _ |>.mp hcond with ⟨h1, -⟩
      simpa using h1
    right; right
    split at hok
    · split at hok <;>
        (simp only [Except.ok.injEq, Prod.mk.injEq] at hok;
         obtain ⟨hg', hevs, -⟩ := hok;
         subst hg'; subst hevs;
         exact ⟨by simp [List.countP_append, List.countP_cons, isHeld],
           by simp [List.countP_append, List.countP_cons, isPlaced], hdh, rfl⟩)
    · simp only [Except.ok.injEq, Prod.mk.injEq] at hok
      obtain ⟨hg', hevs, -⟩ := hok
      subst hg'; subst hevs
      exact ⟨by simp [List.countP_cons, isHeld],
        by simp [List.countP_cons, isPlaced], hdh, rfl⟩
  · have hm := apply_moves_counts (K := K) ops g.config.lock_delay g.board g.used f
    revert hok
    unfold falling_rest
    dsimp only
    split
    · intro hok
      obtain ⟨extra, he, hh, hp, hdh⟩ := lock_tick_counts _ _ _ _ _ _ _ _ _ _ _ hok
      right; left
      refine ⟨?_, ?_, hdh⟩
      · rw [he, List.countP_append, hm.1, hh]
      · rw [he, List.countP_append, hm.2, hp]; omega
    · intro hok
      rcases falling_after_rule_hold_step _ _ _ _ _ _ _ _ _ _ _ hok with
        ⟨hh, hp, hdh⟩ | ⟨hh, hp, hdh⟩
      · left
        exact ⟨by rw [hh, hm.1], by rw [hp, hm.2], hdh⟩
      · right; left
        exact ⟨by rw [hh, hm.1], by rw [hp, hm.2]; omega, hdh⟩

/-- Per-tick hold discipline of `update`. -/
theorem update_hold_step (ops : Ops B P K R) (g : Game B P) (c : Controller) (pr gr : R)
    (g' : Game B P) (evs : List (Event P K)) (pr' gr' : R)
    (hok : update ops g c pr gr = Except.ok (g', evs, pr', gr')) :
    (evs.countP isHeld = 0 ∧ evs.countP isPlaced = 0 ∧ g'.did_hold = g.did_hold) ∨
    (evs.countP isHeld = 0 ∧ 0 < evs.countP isPlaced ∧ g'.did_hold = false) ∨
    (evs.countP isHeld = 1 ∧ evs.countP isPlaced = 0 ∧ g.did_hold = false ∧
      g'.did_hold = true) := by
  unfold update at hok
  dsimp only at hok
  rcases hs : g.state with n | n | f | _ <;> rw [hs] at hok <;> try dsimp only at hok
  · rcases n with _ | m
    · unfold spawn_tick at hok
      try dsimp only at hok
      split at hok
      · simp at hok
      · try dsimp only at hok
        split at hok <;>
          (simp only [Except.ok.injEq, Prod.mk.injEq] at hok;
           obtain ⟨hg', hevs, -⟩ := hok;
           subst hg'; subst hevs;
           left;
           exact ⟨by simp [List.countP_cons, isHeld],
             by simp [List.countP_cons, isPlaced], rfl⟩)
    · simp only [Except.ok.injEq, Prod.mk.injEq] at hok
      obtain ⟨hg', hevs, -⟩ := hok
      subst hg'; subst hevs
      left
      refine ⟨?_, ?_, rfl⟩ <;> split <;> simp [List.countP_cons, isHeld, isPlaced]
  · rcases n with _ | m
    · try dsimp only at hok
      simp only [Except.ok.injEq, Prod.mk.injEq] at hok
      obtain ⟨hg', hevs, -⟩ := hok
      obtain ⟨extra, he, hh, hp, hd⟩ := deal_garbage_counts (K := K) ops _
        [Event.EndOfLineClearDelay] gr
      subst hg'; subst hevs
      left
      refine ⟨?_, ?_, hd⟩
      · rw [he, List.countP_append, hh]; simp [List.countP_cons, isHeld]
      · rw [he, List.countP_append, hp]; simp [List.countP_cons, isPlaced]
    · simp only [Except.ok.injEq, Prod.mk.injEq] at hok
      obtain ⟨hg', hevs, -⟩ := hok
      subst hg'; subst hevs
      left
      exact ⟨rfl, rfl, rfl⟩
  · exact falling_tick_hold_step ops
      { board := g.board, state := GameState.Falling f, config := g.config,
        did_hold := g.did_hold, prev := c,
        used := (input_phase g.config g.prev g.used g.das_delay c).1,
        das_delay := (input_phase g.config g.prev g.used g.das_delay c).2,
        garbage_queue := g.garbage_queue, attacking := g.attacking }
      f pr gr g' evs pr' gr' hok
  · simp only [Except.ok.injEq, Prod.mk.injEq] at hok
    obtain ⟨hg', hevs, -⟩ := hok
    subst hg'; subst hevs
    left
    exact ⟨by simp [List.countP_cons, isHeld], by simp [List.countP_cons, isPlaced], rfl⟩

/-- The run-level invariant tying the scanner counter to `did_hold`. -/
def HoldInv (cnt : Nat) (g : Game B P) : Prop := cnt ≤ 1 ∧ (cnt = 1 → g.did_hold = true)

/-- Scanning the whole event stream of a successful run from a state
satisfying the invariant never sees two `PieceHeld` in one segment. -/
theorem run_scan (ops : Ops B P K R) :
    ∀ (cs : List Controller) (g : Game B P) (pr gr : R) (cnt : Nat) (g' : Game B P)
      (evss : List (List (Event P K))) (pr' gr' : R), HoldInv cnt g →
      run ops g cs pr gr = Except.ok (g', evss, pr', gr') →
      ∃ cnt', scanSeg cnt evss.flatten = some cnt' ∧ HoldInv cnt' g' := by
  intro cs
  induction cs with
  | nil =>
    intro g pr gr cnt g' evss pr' gr' hinv hrun
    simp only [run, Except.ok.injEq, Prod.mk.injEq] at hrun
    obtain ⟨hg', hevss, -⟩ := hrun
    subst hg'; subst hevss
    exact ⟨cnt, by simp [scanSeg], hinv⟩
  | cons c cs ih =>
    intro g pr gr cnt g' evss pr' gr' hinv hrun
    rw [run] at hrun
    rcases hu : update ops g c pr gr with e | ⟨g1, evs, pr1, gr1⟩ <;> rw [hu] at hrun
    · simp at hrun
    · dsimp only at hrun
      rcases hr2 : run ops g1 cs pr1 gr1 with e | ⟨g2, evss2, pr2, gr2⟩ <;>
        rw [hr2] at hrun
      · simp at hrun
      · dsimp only at hrun
        simp only [Except.ok.injEq, Prod.mk.injEq] at hrun
        obtain ⟨hg', hevss, -⟩ := hrun
        subst hg'; subst hevss
        have hstep : ∃ c1, scanSeg cnt evs = some c1 ∧ HoldInv c1 g1 := by
          have hle := hinv.1
          rcases update_hold_step _ _ _ _ _ _ _ _ _ hu with
            ⟨hh, hp, hd⟩ | ⟨hh, hp, hd⟩ | ⟨hh, hp, hd0, hd1⟩
          · refine ⟨cnt, ?_, hinv.1, fun h1 => ?_⟩
            · rw [scanSeg_no_held evs hh cnt, if_pos hp]
            · rw [hd]; exact hinv.2 h1
          · refine ⟨0, ?_, by omega, fun h => absurd h (by omega)⟩
            rw [scanSeg_no_held evs hh cnt, if_neg (by omega)]
          · have hc0 : cnt = 0 := by
              rcases Nat.lt_or_ge cnt 1 with h | h
              · omega
              · have h2 := hinv.2 (by omega)
                rw [hd0] at h2
                cases h2
            subst hc0
            exact ⟨1, scanSeg_one_held evs hh hp, by omega, fun _ => hd1⟩
        obtain ⟨c1, hscan1, hinv1⟩ := hstep
        obtain ⟨c2, hscan2, hinv2⟩ := ih g1 pr1 gr1 c1 g2 evss2 pr2 gr2 hinv1 hr2
        refine ⟨c2, ?_, hinv2⟩
        rw [List.flatten_cons, scanSeg_append, hscan1]
        exact hscan2

/-- The event streams of a successful run, `none` on a halt. -/
def run_events (ops : Ops B P K R) (g : Game B P) (cs : List Controller) (pr gr : R) :
    Option (List (List (Event P K))) :=
  match run ops g cs pr gr with
  | Except.ok x => some x.2.1
  | Except.error _ => none

/-- Claim C8: in every event sequence produced by any run of the game from
`Game::new` (any controller sequence, any board behavior, any RNG values),
between two successive `PiecePlaced` events there is at most one
`PieceHeld`: the `did_hold` flag is set by a hold, suppresses further holds
while set, and is cleared exactly by locking a piece. -/
theorem hold_once_between_locks (ops : Ops B P K R) (cfg : GameConfig) (r : R)
    (cs : List Controller) (pr gr : R) (evss : List (List (Event P K)))
    (xs ys zs : List (Event P K)) (e e' : Event P K)
    (hrun : run_events ops (new_game ops cfg r).1 cs pr gr = some evss)
    (hsplit : evss.flatten = xs ++ e :: ys ++ e' :: zs)
    (he : isPlaced e = true) (_he' : isPlaced e' = true)
    (hys : ys.countP isPlaced = 0) :
    ys.countP isHeld ≤ 1 := by
  unfold run_events at hrun
  rcases hr : run ops (new_game ops cfg r).1 cs pr gr with err | ⟨g', evss', pr', gr'⟩ <;>
    rw [hr] at hrun
  · simp at hrun
  · dsimp only at hrun
    simp only [Option.some.injEq] at hrun
    subst hrun
    obtain ⟨cnt', hscan, -⟩ := run_scan ops cs (new_game ops cfg r).1 pr gr 0 g' evss'
      pr' gr' ⟨by omega, fun h => absurd h (by omega)⟩ hr
    rw [hsplit] at hscan
    have hheld : isHeld e = false := by
      cases e <;> simp_all [isHeld, isPlaced]
    rw [scanSeg_append, scanSeg_append] at hscan
    rcases hx : scanSeg (P := P) (K := K) 0 xs with _ | c1 <;> rw [hx] at hscan
    · simp at hscan
    · have hstep2 : scanSeg c1 (e :: ys) = scanSeg 0 ys := by
        simp [scanSeg, hheld, he]
      simp only [Option.some_bind] at hscan
      rw [hstep2] at hscan
      rcases hy : scanSeg (P := P) (K := K) 0 ys with _ | c2 <;> rw [hy] at hscan
      · simp at hscan
      · exact scanSeg_free_le_one ys hys c2 hy

/-- Witness for C8 at concrete inputs: a four-tick run with two hard-drop
locks; the segment between the two `PiecePlaced` events contains no
`PieceHeld`. -/
theorem hold_once_between_locks_witness :
    List.countP isHeld [Event.PieceSpawned (), Event.PieceFalling () ()] ≤ 1 :=
  hold_once_between_locks (constOps lr0) cfg0 () [noInput, cHD, noInput, cHD] () ()
    [[Event.PieceSpawned (), Event.PieceFalling () ()],
     [Event.PiecePlaced () lr0 (some 0)],
     [Event.PieceSpawned (), Event.PieceFalling () ()],
     [Event.PiecePlaced () lr0 (some 0)]]
    [Event.PieceSpawned (), Event.PieceFalling () ()]
    [Event.PieceSpawned (), Event.PieceFalling () ()]
    []
    (Event.PiecePlaced () lr0 (some 0))
    (Event.PiecePlaced () lr0 (some 0))
    rfl rfl rfl rfl rfl

end CC
